import Mathlib

/-!
Shallow embedding of the aws-cost-notification pipeline.

The embedding follows the Rust sources:
  * src/date_range.rs            (ReportDateRange)
  * src/cost_explorer/cost_response_parser.rs
                                 (Cost, ReportedDateRange, TotalCost, ServiceCost,
                                  parse_timestamp_into_local_date)
  * src/message_builder.rs       (Display impls, NotificationMessage)
  * src/cost_explorer.rs, src/main.rs
                                 (request building and the top-level run)

Modelling conventions:
  * chrono calendar dates become the structure CalDate (proleptic Gregorian,
    integer year, numbered months and days);
  * f32 amounts become Option Rat, with none standing for NaN; the billing
    amounts that actually occur are finite decimals, and two-decimal display
    formatting is modelled as round-half-to-even on the exact rational value,
    which is what Rust float formatting does on the stored binary value;
  * every unwrap panic in the parsing code is modelled as an Except error,
    labelled with the error taxonomy of the design document
    (MissingField, InvalidTimestamp, MalformedCost);
  * the stable sort used by Vec::sort_by is modelled by a top-down stable
    merge sort whose comparator may fail (Option Ordering); a failing
    comparison, which in Rust is the panic of the unwrap inside sort_by,
    makes the whole sort return none.
-/

set_option maxRecDepth 4000

namespace AwsCostNotif

/-! ## Calendar dates (model of chrono Date) -/

/-- Calendar date in the proleptic Gregorian calendar, modelling chrono dates. -/
structure CalDate where
  year : Int
  month : Nat
  day : Nat
deriving DecidableEq, Repr

/-- Gregorian leap-year rule. -/
def isLeapYear (y : Int) : Bool :=
  y % 4 == 0 && (y % 100 != 0 || y % 400 == 0)

/-- Number of days of a month (month numbered 1..12). -/
def daysInMonth (y : Int) (m : Nat) : Nat :=
  if m = 2 then (if isLeapYear y then 29 else 28)
  else if m = 4 ∨ m = 6 ∨ m = 9 ∨ m = 11 then 30
  else 31

/-- Validity of a calendar date. -/
def CalDate.isValid (d : CalDate) : Bool :=
  1 ≤ d.month && d.month ≤ 12 && 1 ≤ d.day && d.day ≤ daysInMonth d.year d.month

/-- Calendar predecessor of a date (chrono Date::pred). -/
def CalDate.pred (d : CalDate) : CalDate :=
  if 1 < d.day then { d with day := d.day - 1 }
  else if 1 < d.month then { year := d.year, month := d.month - 1,
                             day := daysInMonth d.year (d.month - 1) }
  else { year := d.year - 1, month := 12, day := 31 }

/-- Replacement of the day-of-month field (chrono Date::with_day). -/
def CalDate.withDay (d : CalDate) (day : Nat) : CalDate :=
  { d with day := day }

/-! ## ReportDateRange (src/date_range.rs) -/

/-- Reporting period computed from the reporting date, as in date_range.rs. -/
structure ReportDateRange where
  start_date : CalDate
  end_date : CalDate
deriving DecidableEq, Repr

/-- Translation of ReportDateRange::new: if the reporting date is the first
day of its month, the range starts at the first day of the previous month,
otherwise at the first day of the current month; the end is always the
reporting date. -/
def ReportDateRange.new (reporting_date : CalDate) : ReportDateRange :=
  let first_day_of_month := reporting_date.withDay 1
  let start_date :=
    if reporting_date = first_day_of_month then
      (first_day_of_month.pred).withDay 1
    else
      first_day_of_month
  { start_date := start_date, end_date := reporting_date }

/-! ## Decimal digit rendering and parsing -/

/-- Character of a decimal digit 0..9. -/
def digitChar (d : Nat) : Char :=
  match d with
  | 0 => '0' | 1 => '1' | 2 => '2' | 3 => '3' | 4 => '4'
  | 5 => '5' | 6 => '6' | 7 => '7' | 8 => '8' | _ => '9'

/-- Numeric value of a digit character. -/
def digitVal (c : Char) : Nat := c.toNat - 48

/-- Digits of n in base ten, most significant first, pushed onto acc; the
first argument is structural fuel, sufficient whenever it is at least n. -/
def natDigitsAux : Nat → Nat → List Char → List Char
  | _, 0, acc => acc
  | 0, _, acc => acc
  | fuel + 1, n + 1, acc =>
    natDigitsAux fuel ((n + 1) / 10) (digitChar ((n + 1) % 10) :: acc)

/-- Decimal digits of a natural number, most significant first. -/
def natDigits (n : Nat) : List Char :=
  if n = 0 then ['0'] else natDigitsAux n n []

/-- Decimal rendering of a natural number. -/
def renderNat (n : Nat) : String := ⟨natDigits n⟩

/-- Digits of n zero-padded on the left to width two (Rust format {:02}). -/
def pad2Chars (n : Nat) : List Char :=
  if n < 10 then '0' :: natDigits n else natDigits n

/-- String form of pad2Chars. -/
def pad2 (n : Nat) : String := ⟨pad2Chars n⟩

/-- Digits of n zero-padded on the left to width four (chrono %Y for 0..9999). -/
def pad4Chars (n : Nat) : List Char :=
  List.replicate (4 - (natDigits n).length) '0' ++ natDigits n

/-- Year rendering of chrono %Y: years 0..9999 are zero-padded to four
digits, negative years carry a minus sign, years above 9999 a plus sign. -/
def yearChars (y : Int) : List Char :=
  if y < 0 then '-' :: pad4Chars y.natAbs
  else if y ≤ 9999 then pad4Chars y.toNat
  else '+' :: natDigits y.toNat

/-- Characters of the %Y-%m-%d rendering of a date. -/
def dateChars (d : CalDate) : List Char :=
  yearChars d.year ++ '-' :: pad2Chars d.month ++ '-' :: pad2Chars d.day

/-- Rendering of a date in the %Y-%m-%d format used by Date::format in
as_date_interval. -/
def formatDate (d : CalDate) : String := ⟨dateChars d⟩

/-- Value of a big-endian digit string. -/
def valOfDigits (ds : List Char) : Nat :=
  ds.foldl (fun a c => 10 * a + digitVal c) 0

/-- Wire-level date interval (rusoto DateInterval): two %Y-%m-%d strings. -/
structure DateInterval where
  start : String
  end_ : String
deriving DecidableEq, Repr

/-- Translation of ReportDateRange::as_date_interval. -/
def ReportDateRange.as_date_interval (r : ReportDateRange) : DateInterval :=
  { end_ := formatDate r.end_date, start := formatDate r.start_date }

/-- Strict %Y-%m-%d parsing on a character list: an optional sign, year
digits, a dash, one or two month digits, a dash, one or two day digits, end
of input, followed by the calendar validity check performed by
NaiveDate::parse_from_str. -/
def parseDateChars (cs : List Char) : Option CalDate :=
  let (sign, cs₁) : Int × List Char :=
    match cs with
    | '+' :: rest => (1, rest)
    | '-' :: rest => (-1, rest)
    | rest => (1, rest)
  let yds := cs₁.takeWhile Char.isDigit
  let rest₁ := cs₁.dropWhile Char.isDigit
  if yds = [] then none else
  match rest₁ with
  | '-' :: cs₂ =>
    let mds := cs₂.takeWhile Char.isDigit
    let rest₂ := cs₂.dropWhile Char.isDigit
    if mds = [] ∨ 2 < mds.length then none else
    match rest₂ with
    | '-' :: cs₃ =>
      let dds := cs₃.takeWhile Char.isDigit
      let rest₃ := cs₃.dropWhile Char.isDigit
      if dds = [] ∨ 2 < dds.length ∨ rest₃ ≠ [] then none else
      let d : CalDate :=
        { year := sign * (valOfDigits yds : Int),
          month := valOfDigits mds, day := valOfDigits dds }
      if d.isValid then some d else none
    | _ => none
  | _ => none

/-- Translation of parse_timestamp_into_local_date: strict %Y-%m-%d parsing
of a timestamp string, none modelling the parse failure panic. -/
def parseTimestamp (s : String) : Option CalDate :=
  parseDateChars s.data

/-! ## Billing API response types (rusoto_ce shapes used by the code) -/

/-- Metric value of the response: amount and unit, both optional strings. -/
structure MetricValue where
  amount : Option String
  unit : Option String
deriving DecidableEq, Repr

/-- Group of the response: a key list and a metric map, modelled as an
association list. -/
structure Group where
  keys : Option (List String)
  metrics : Option (List (String × MetricValue))
deriving DecidableEq, Repr

/-- Grouping definition of the request. -/
structure GroupDefinition where
  type_ : Option String
  key : Option String
deriving DecidableEq, Repr

/-- Time bucket of the response. -/
structure ResultByTime where
  estimated : Option Bool
  groups : Option (List Group)
  time_period : Option DateInterval
  total : Option (List (String × MetricValue))
deriving DecidableEq, Repr

/-- Billing API response: only results_by_time is ever read by the parser. -/
structure GetCostAndUsageResponse where
  dimension_value_attributes : Option (List String)
  group_definitions : Option (List GroupDefinition)
  next_page_token : Option String
  results_by_time : Option (List ResultByTime)
deriving DecidableEq, Repr

/-- Lookup in a metric map (HashMap::get on the association-list model). -/
def lookupMetric (m : List (String × MetricValue)) (k : String) : Option MetricValue :=
  (m.find? (fun p => p.1 == k)).map (·.2)

/-! ## Parse errors

Every unwrap in the parsing code is a panic; the embedding turns each into
an Except error labelled by the error taxonomy of the design document:
unwrap of a missing response section (including indexing an empty bucket
or key list) is MissingField, a timestamp that fails strict %Y-%m-%d
parsing is InvalidTimestamp, an amount string that fails numeric parsing
is MalformedCost. -/
inductive ParseError where
  | MissingField
  | InvalidTimestamp
  | MalformedCost
deriving DecidableEq, Repr

/-! ## Cost parsing (src/cost_explorer/cost_response_parser.rs) -/

/-- Amount of money as parsed from the response.  The f32 of the source is
modelled as Option Rat: some q is a finite value with exact decimal value
q, none is NaN.  Comparisons on NaN fail, mirroring f32 PartialOrd. -/
abbrev Amount := Option Rat

/-- AWS cost: amount and currency unit, as in cost_response_parser.rs. -/
structure Cost where
  amount : Amount
  unit : String
deriving DecidableEq, Repr

/-- Parsing of a decimal amount string, modelling Rust float parsing of the
finite plain-decimal literals the billing API produces: an optional sign,
then digits with an optional fractional part (at least one digit overall).
The special float literals (NaN, infinity) and exponent forms accepted by
Rust do not occur in billing responses and are not modelled. -/
def parseAmount (s : String) : Option Rat :=
  let (sign, cs₁) : Int × List Char :=
    match s.data with
    | '+' :: rest => (1, rest)
    | '-' :: rest => (-1, rest)
    | rest => (1, rest)
  let ids := cs₁.takeWhile Char.isDigit
  let rest₁ := cs₁.dropWhile Char.isDigit
  match rest₁ with
  | [] =>
    if ids = [] then none
    else some (mkRat (sign * (valOfDigits ids : Int)) 1)
  | '.' :: cs₂ =>
    let fds := cs₂.takeWhile Char.isDigit
    let rest₂ := cs₂.dropWhile Char.isDigit
    if rest₂ ≠ [] then none
    else if ids = [] ∧ fds = [] then none
    else some (mkRat
      (sign * ((valOfDigits ids : Int) * (10 ^ fds.length : Nat) + (valOfDigits fds : Int)))
      (10 ^ fds.length))
  | _ => none

/-- Translation of the MetricValue-to-Cost From impl: unwrap the amount
string, parse it as a number, unwrap the unit. -/
def Cost.fromMetricValue (mv : MetricValue) : Except ParseError Cost :=
  match mv.amount with
  | none => .error .MissingField
  | some a =>
    match parseAmount a with
    | none => .error .MalformedCost
    | some q =>
      match mv.unit with
      | none => .error .MissingField
      | some u => .ok { amount := some q, unit := u }

/-- Period of cost aggregation in the API response. -/
structure ReportedDateRange where
  start_date : CalDate
  end_date : CalDate
deriving DecidableEq, Repr

/-- Total AWS cost during the reported date range. -/
structure TotalCost where
  date_range : ReportedDateRange
  cost : Cost
deriving DecidableEq, Repr

/-- Translation of the response-to-TotalCost From impl:
take the first time bucket, read its aggregation period, parse both
timestamps, look up the AmortizedCost metric of the total map and convert
it into a Cost. -/
def TotalCost.fromResponse (res : GetCostAndUsageResponse) : Except ParseError TotalCost :=
  match res.results_by_time with
  | none => .error .MissingField
  | some buckets =>
    match buckets with
    | [] => .error .MissingField
    | bucket :: _ =>
      match bucket.time_period with
      | none => .error .MissingField
      | some time_period =>
        match parseTimestamp time_period.start with
        | none => .error .InvalidTimestamp
        | some parsed_start_date =>
          match parseTimestamp time_period.end_ with
          | none => .error .InvalidTimestamp
          | some parsed_end_date =>
            match bucket.total with
            | none => .error .MissingField
            | some total =>
              match lookupMetric total "AmortizedCost" with
              | none => .error .MissingField
              | some amortized_cost =>
                (Cost.fromMetricValue amortized_cost).map fun cost =>
                  { date_range := { start_date := parsed_start_date,
                                    end_date := parsed_end_date },
                    cost := cost }

/-- Cost of a single service. -/
structure ServiceCost where
  service_name : String
  cost : Cost
deriving DecidableEq, Repr

/-- Translation of the Group-to-ServiceCost From impl: the service name
is the first element of the key list, the cost comes from the
AmortizedCost metric of the group. -/
def ServiceCost.fromGroup (g : Group) : Except ParseError ServiceCost :=
  match g.keys with
  | none => .error .MissingField
  | some keys =>
    match keys with
    | [] => .error .MissingField
    | service_name :: _ =>
      match g.metrics with
      | none => .error .MissingField
      | some metrics =>
        match lookupMetric metrics "AmortizedCost" with
        | none => .error .MissingField
        | some amortized_cost =>
          (Cost.fromMetricValue amortized_cost).map fun cost =>
            { service_name := service_name, cost := cost }

/-- Mapping of a fallible conversion over a list, stopping at the first
failure (the first panic of the iterator in the source). -/
def mapExcept (f : α → Except ε β) : List α → Except ε (List β)
  | [] => .ok []
  | a :: as =>
    match f a with
    | .error e => .error e
    | .ok b => (mapExcept f as).map (b :: ·)

/-- Translation of ServiceCost::from_response: take the first time bucket,
unwrap its group list and convert every group in order. -/
def ServiceCost.fromResponse (res : GetCostAndUsageResponse) :
    Except ParseError (List ServiceCost) :=
  match res.results_by_time with
  | none => .error .MissingField
  | some buckets =>
    match buckets with
    | [] => .error .MissingField
    | bucket :: _ =>
      match bucket.groups with
      | none => .error .MissingField
      | some groups => mapExcept ServiceCost.fromGroup groups

/-! ## Message builder (src/message_builder.rs) -/

/-- Rounding of a rational number to the nearest integer with ties to
even, the rounding of Rust two-decimal float formatting.  Computed on the
normalized fraction: f is the floor, and twice the remainder num - f*den
is compared against den to decide between f, f+1 and the tie. -/
def roundTiesEven (q : Rat) : Int :=
  let f := Int.fdiv q.num q.den
  let r2 := 2 * (q.num - f * (q.den : Int))
  if r2 < (q.den : Int) then f
  else if (q.den : Int) < r2 then f + 1
  else if f % 2 = 0 then f else f + 1

/-- Two-decimal rendering of an amount, modelling the Rust format {:.2} on
an f32: NaN prints as NaN, a finite value prints its sign, then the
rounded value of one hundred times its magnitude (built with mkRat on the
exact fraction) split into integer part and two-digit fractional part. -/
def fmtAmount (a : Amount) : String :=
  match a with
  | none => "NaN"
  | some q =>
    let mag : Rat := if q < 0 then -q else q
    let n := (roundTiesEven (mkRat (mag.num * 100) mag.den)).toNat
    (if q < 0 then "-" else "") ++ renderNat (n / 100) ++ "." ++ pad2 (n % 100)

/-- Translation of the Display impl for Cost: two-decimal amount, a space,
then the unit. -/
def Cost.display (c : Cost) : String :=
  fmtAmount c.amount ++ " " ++ c.unit

/-- Translation of the Display impl for ReportedDateRange: zero-padded
month/day~month/day. -/
def ReportedDateRange.display (r : ReportedDateRange) : String :=
  pad2 r.start_date.month ++ "/" ++ pad2 r.start_date.day ++ "~" ++
    pad2 r.end_date.month ++ "/" ++ pad2 r.end_date.day

/-- Translation of ServiceCost::to_message_line. -/
def ServiceCost.to_message_line (s : ServiceCost) : String :=
  "・" ++ s.service_name ++ ": " ++ s.cost.display

/-- Translation of TotalCost::to_message_header. -/
def TotalCost.to_message_header (t : TotalCost) : String :=
  t.date_range.display ++ "の請求額は、" ++ t.cost.display ++ "です。"

/-- Three-way comparison of rational numbers. -/
def compareQ (a b : Rat) : Ordering :=
  if a < b then .lt else if a = b then .eq else .gt

/-- Three-way comparison of strings (Rust String Ord, lexicographic). -/
def compareString (a b : String) : Ordering :=
  if a < b then .lt else if a = b then .eq else .gt

/-- Comparison of amounts in the f32 PartialOrd sense: none (NaN) on either
side is incomparable. -/
def cmpAmount (a b : Amount) : Option Ordering :=
  match a, b with
  | some qa, some qb => some (compareQ qa qb)
  | _, _ => none

/-- Derived PartialOrd comparison of Cost: amount first, then unit. -/
def Cost.cmpOption (a b : Cost) : Option Ordering :=
  match cmpAmount a.amount b.amount with
  | none => none
  | some .eq => some (compareString a.unit b.unit)
  | some o => some o

/-- Comparator passed to sort_by in NotificationMessage::new: the closure
compares b.cost against a.cost, giving a descending order. -/
def serviceCostComparator (a b : ServiceCost) : Option Ordering :=
  Cost.cmpOption b.cost a.cost

/-- Stable merge of two lists under a fallible comparator: the head of the
right list is taken first exactly when the comparison answers gt, and a
failing comparison (the unwrap panic of the source) aborts the merge. -/
def mergeOpt (cmp : α → α → Option Ordering) : List α → List α → Option (List α)
  | [], l₂ => some l₂
  | l₁, [] => some l₁
  | a :: as, b :: bs =>
    match cmp a b with
    | none => none
    | some .gt => (mergeOpt cmp (a :: as) bs).map (b :: ·)
    | some _ => (mergeOpt cmp as (b :: bs)).map (a :: ·)
termination_by l₁ l₂ => l₁.length + l₂.length
decreasing_by all_goals simp +arith

/-- Split of a list at its midpoint (first half rounded up). -/
def splitHalf (l : List α) : List α × List α :=
  (l.take ((l.length + 1) / 2), l.drop ((l.length + 1) / 2))

/-- Stable top-down merge sort under a fallible comparator, the model of
Vec::sort_by: a list of length below two involves no comparison, longer
lists are split, sorted and merged, and any failing comparison (which in
Rust panics) makes the whole sort fail. -/
def mergeSortOpt (cmp : α → α → Option Ordering) : List α → Option (List α)
  | [] => some []
  | [a] => some [a]
  | a :: b :: rest =>
    let halves := splitHalf (a :: b :: rest)
    match mergeSortOpt cmp halves.1, mergeSortOpt cmp halves.2 with
    | some r₁, some r₂ => mergeOpt cmp r₁ r₂
    | _, _ => none
termination_by l => l.length
decreasing_by
  · simp [splitHalf]; omega
  · simp [splitHalf]; omega

/-- Sorting of the service costs as performed by NotificationMessage::new. -/
def sortServiceCosts (l : List ServiceCost) : Option (List ServiceCost) :=
  mergeSortOpt serviceCostComparator l

/-- Cost notification message: header for the total cost, body with one
line per service. -/
structure NotificationMessage where
  header : String
  body : String
deriving DecidableEq, Repr

/-- Translation of NotificationMessage::new: sort the service costs with
the descending comparator (none models the unwrap panic on incomparable
costs), drop every service whose formatted cost is 0.00 USD, and join the
remaining lines. -/
def NotificationMessage.new (total_cost : TotalCost) (service_costs : List ServiceCost) :
    Option NotificationMessage :=
  (sortServiceCosts service_costs).map fun sorted_service_costs =>
    { header := total_cost.to_message_header,
      body := String.intercalate "\n"
        (((sorted_service_costs.filter fun x => x.cost.display != "0.00 USD").map
          ServiceCost.to_message_line)) }

/-! ## Cost query service and top-level run (src/cost_explorer.rs, src/main.rs) -/

/-- Request of the GetCostAndUsage endpoint. -/
structure GetCostAndUsageRequest where
  filter : Option String
  granularity : String
  group_by : Option (List GroupDefinition)
  metrics : List String
  next_page_token : Option String
  time_period : DateInterval
deriving DecidableEq, Repr

/-- Translation of build_cost_and_usage_request: monthly granularity, the
AmortizedCost metric, the date interval of the report range, and a SERVICE
group-by dimension exactly when a per-service breakdown is requested. -/
def build_cost_and_usage_request (report_date_range : ReportDateRange)
    (is_total : Bool) : GetCostAndUsageRequest :=
  let group_by : Option (List GroupDefinition) :=
    match is_total with
    | true => none
    | false => some [{ type_ := some "DIMENSION", key := some "SERVICE" }]
  { filter := none,
    granularity := "MONTHLY",
    group_by := group_by,
    metrics := ["AmortizedCost"],
    next_page_token := none,
    time_period := report_date_range.as_date_interval }

/-- Failure of a single run: a transport failure of the billing API call,
a parse failure of a response, the panic of message building on
incomparable costs, or a failure of the notification delivery. -/
inductive RunError where
  | transport (msg : String)
  | parse (e : ParseError)
  | buildPanic
  | send (msg : String)
deriving DecidableEq, Repr

/-- Translation of CostExplorerService::request_total_cost: issue the
aggregate request and parse the response; a transport failure (the unwrap
panic on the client result) or a parse failure aborts. -/
def request_total_cost
    (client : GetCostAndUsageRequest → Except String GetCostAndUsageResponse)
    (report_date_range : ReportDateRange) : Except RunError TotalCost :=
  match client (build_cost_and_usage_request report_date_range true) with
  | .error e => .error (.transport e)
  | .ok res => (TotalCost.fromResponse res).mapError .parse

/-- Translation of CostExplorerService::request_service_costs: issue the
grouped request and parse the response. -/
def request_service_costs
    (client : GetCostAndUsageRequest → Except String GetCostAndUsageResponse)
    (report_date_range : ReportDateRange) : Except RunError (List ServiceCost) :=
  match client (build_cost_and_usage_request report_date_range false) with
  | .error e => .error (.transport e)
  | .ok res => (ServiceCost.fromResponse res).mapError .parse

/-- Translation of request_cost_and_notify in main.rs: compute the report
range, retrieve and parse the total cost and the service costs, build the
notification message and send it.  The second component records the
messages handed to the notifier, so that delivery (and its absence) is
observable in the model. -/
def request_cost_and_notify
    (client : GetCostAndUsageRequest → Except String GetCostAndUsageResponse)
    (slack_post : NotificationMessage → Except String Unit)
    (reporting_date : CalDate) : Except RunError Unit × List NotificationMessage :=
  let report_date_range := ReportDateRange.new reporting_date
  match request_total_cost client report_date_range with
  | .error e => (.error e, [])
  | .ok total_cost =>
    match request_service_costs client report_date_range with
    | .error e => (.error e, [])
    | .ok service_costs =>
      match NotificationMessage.new total_cost service_costs with
      | none => (.error .buildPanic, [])
      | some notification_message =>
        match slack_post notification_message with
        | .ok _ => (.ok (), [notification_message])
        | .error e => (.error (.send e), [notification_message])

/-! ## Statement-side definitions used by the claims -/

/-- Header format stated by the design document: zero-padded start
month/day, a tilde, zero-padded end month/day, then the total amount to
two decimals with its unit inside the Japanese billing sentence. -/
def headerSpecFormat (t : TotalCost) : String :=
  pad2 t.date_range.start_date.month ++ "/" ++ pad2 t.date_range.start_date.day ++
    "~" ++ pad2 t.date_range.end_date.month ++ "/" ++ pad2 t.date_range.end_date.day ++
    "の請求額は、" ++ fmtAmount t.cost.amount ++ " " ++ t.cost.unit ++ "です。"

/-- Strict comparison of two costs in the order actually used by the sort:
both amounts finite, and either a strictly smaller amount, or equal
amounts and a strictly smaller unit string. -/
def Cost.lexLt (a b : Cost) : Prop :=
  ∃ qa qb, a.amount = some qa ∧ b.amount = some qb ∧
    (qa < qb ∨ (qa = qb ∧ a.unit < b.unit))

/-! ## Lemmas about decimal digit rendering -/

theorem digitChar_isDigit (d : Nat) : (digitChar d).isDigit = true := by
  rcases d with _ | _ | _ | _ | _ | _ | _ | _ | _ | d
  · decide
  · decide
  · decide
  · decide
  · decide
  · decide
  · decide
  · decide
  · decide
  · rfl

theorem digitVal_digitChar (d : Nat) (h : d < 10) : digitVal (digitChar d) = d := by
  rcases d with _ | _ | _ | _ | _ | _ | _ | _ | _ | _ | d
  · rfl
  · rfl
  · rfl
  · rfl
  · rfl
  · rfl
  · rfl
  · rfl
  · rfl
  · rfl
  · omega

theorem natDigitsAux_zero_n (f : Nat) (acc : List Char) :
    natDigitsAux f 0 acc = acc := by
  cases f <;> rfl

theorem natDigitsAux_zero_fuel (n : Nat) (acc : List Char) :
    natDigitsAux 0 n acc = acc := by
  cases n <;> rfl

theorem natDigitsAux_succ (f n : Nat) (acc : List Char) (hn : n ≠ 0) :
    natDigitsAux (f + 1) n acc =
      natDigitsAux f (n / 10) (digitChar (n % 10) :: acc) := by
  cases n with
  | zero => exact absurd rfl hn
  | succ m => rfl

theorem natDigitsAux_fuel_eq (f₁ : Nat) : ∀ (f₂ n : Nat) (acc : List Char),
    n ≤ f₁ → n ≤ f₂ → natDigitsAux f₁ n acc = natDigitsAux f₂ n acc := by
  induction f₁ with
  | zero =>
    intro f₂ n acc h₁ _
    have hn : n = 0 := by omega
    subst hn
    rw [natDigitsAux_zero_n, natDigitsAux_zero_n]
  | succ f ih =>
    intro f₂ n acc h₁ h₂
    by_cases hn : n = 0
    · subst hn
      rw [natDigitsAux_zero_n, natDigitsAux_zero_n]
    · cases f₂ with
      | zero => omega
      | succ g =>
        have hd : n / 10 < n := Nat.div_lt_self (Nat.pos_of_ne_zero hn) (by decide)
        rw [natDigitsAux_succ f n acc hn, natDigitsAux_succ g n acc hn]
        exact ih g (n / 10) _ (by omega) (by omega)

theorem natDigitsAux_eq (n : Nat) (acc : List Char) :
    natDigitsAux n n acc =
      if n = 0 then acc
      else natDigitsAux (n / 10) (n / 10) (digitChar (n % 10) :: acc) := by
  by_cases hn : n = 0
  · subst hn
    rw [if_pos rfl, natDigitsAux_zero_n]
  · rw [if_neg hn]
    cases n with
    | zero => exact absurd rfl hn
    | succ m =>
      have hd : (m + 1) / 10 < m + 1 :=
        Nat.div_lt_self (Nat.pos_of_ne_zero hn) (by decide)
      rw [natDigitsAux_succ m (m + 1) acc hn]
      exact natDigitsAux_fuel_eq m _ _ _ (by omega) (le_refl _)

theorem natDigitsAux_eq_append (n : Nat) : ∀ (acc : List Char),
    natDigitsAux n n acc = natDigitsAux n n [] ++ acc := by
  induction n using Nat.strong_induction_on with
  | _ n ih =>
    intro acc
    by_cases h : n = 0
    · subst h
      simp [natDigitsAux_zero_n]
    · have hlt : n / 10 < n := Nat.div_lt_self (Nat.pos_of_ne_zero h) (by decide)
      conv_lhs => rw [natDigitsAux_eq, if_neg h]
      conv_rhs => rw [natDigitsAux_eq, if_neg h]
      rw [ih (n / 10) hlt (digitChar (n % 10) :: acc),
        ih (n / 10) hlt [digitChar (n % 10)]]
      simp

theorem natDigitsAux_all_digits (n : Nat) : ∀ c ∈ natDigitsAux n n [], c.isDigit = true := by
  induction n using Nat.strong_induction_on with
  | _ n ih =>
    intro c hc
    by_cases h : n = 0
    · subst h
      simp [natDigitsAux_zero_n] at hc
    · have hlt : n / 10 < n := Nat.div_lt_self (Nat.pos_of_ne_zero h) (by decide)
      rw [natDigitsAux_eq, if_neg h, natDigitsAux_eq_append] at hc
      rcases List.mem_append.mp hc with h1 | h1
      · exact ih (n / 10) hlt c h1
      · simp at h1; subst h1; exact digitChar_isDigit _

theorem natDigits_all_digits (n : Nat) (c : Char) (hc : c ∈ natDigits n) :
    c.isDigit = true := by
  unfold natDigits at hc
  split at hc
  · simp at hc; subst hc; decide
  · exact natDigitsAux_all_digits n c hc

theorem natDigits_ne_nil (n : Nat) : natDigits n ≠ [] := by
  unfold natDigits
  split
  · simp
  · rename_i h
    rw [natDigitsAux_eq, if_neg h, natDigitsAux_eq_append]
    simp

theorem valOfDigits_append_singleton (ds : List Char) (c : Char) :
    valOfDigits (ds ++ [c]) = 10 * valOfDigits ds + digitVal c := by
  unfold valOfDigits
  rw [List.foldl_append]
  rfl

theorem valOfDigits_natDigitsAux (n : Nat) :
    valOfDigits (natDigitsAux n n []) = n := by
  induction n using Nat.strong_induction_on with
  | _ n ih =>
    by_cases h : n = 0
    · subst h
      simp [natDigitsAux_zero_n, valOfDigits]
    · have hlt : n / 10 < n := Nat.div_lt_self (Nat.pos_of_ne_zero h) (by decide)
      rw [natDigitsAux_eq, if_neg h, natDigitsAux_eq_append,
        valOfDigits_append_singleton, ih (n / 10) hlt,
        digitVal_digitChar _ (Nat.mod_lt _ (by decide))]
      omega

theorem valOfDigits_natDigits (n : Nat) : valOfDigits (natDigits n) = n := by
  unfold natDigits
  split
  · simp_all [valOfDigits, digitVal]
  · exact valOfDigits_natDigitsAux n

theorem valOfDigits_cons_zero (ds : List Char) :
    valOfDigits ('0' :: ds) = valOfDigits ds := by
  show List.foldl _ (10 * 0 + digitVal '0') ds = _
  norm_num [digitVal]
  rfl

theorem valOfDigits_replicate_zero (k : Nat) (ds : List Char) :
    valOfDigits (List.replicate k '0' ++ ds) = valOfDigits ds := by
  induction k with
  | zero => simp
  | succ k ih => rw [List.replicate_succ, List.cons_append, valOfDigits_cons_zero, ih]

theorem pad2Chars_all_digits (n : Nat) (c : Char) (hc : c ∈ pad2Chars n) :
    c.isDigit = true := by
  unfold pad2Chars at hc
  split at hc
  · rcases List.mem_cons.mp hc with h1 | h1
    · subst h1; decide
    · exact natDigits_all_digits n c h1
  · exact natDigits_all_digits n c hc

theorem pad2Chars_ne_nil (n : Nat) : pad2Chars n ≠ [] := by
  unfold pad2Chars
  split
  · simp
  · exact natDigits_ne_nil n

theorem valOfDigits_pad2Chars (n : Nat) : valOfDigits (pad2Chars n) = n := by
  unfold pad2Chars
  split
  · rw [valOfDigits_cons_zero, valOfDigits_natDigits]
  · exact valOfDigits_natDigits n

theorem natDigitsAux_single (n : Nat) (h0 : n ≠ 0) (h : n < 10) :
    natDigitsAux n n [] = [digitChar n] := by
  rw [natDigitsAux_eq, if_neg h0, Nat.div_eq_of_lt h, Nat.mod_eq_of_lt h,
    natDigitsAux_zero_n]

theorem natDigits_of_lt_10 (n : Nat) (h : n < 10) : natDigits n = [digitChar n] := by
  unfold natDigits
  by_cases h0 : n = 0
  · subst h0; rfl
  · rw [if_neg h0, natDigitsAux_single n h0 h]

theorem natDigits_of_lt_100 (n : Nat) (h1 : 10 ≤ n) (h2 : n < 100) :
    natDigits n = [digitChar (n / 10), digitChar (n % 10)] := by
  unfold natDigits
  rw [if_neg (by omega), natDigitsAux_eq, if_neg (by omega : ¬ n = 0),
    natDigitsAux_eq_append, natDigitsAux_single (n / 10) (by omega) (by omega)]
  rfl

theorem pad2Chars_length_le (n : Nat) (h : n < 100) : (pad2Chars n).length ≤ 2 := by
  unfold pad2Chars
  split
  · rename_i h10
    simp [natDigits_of_lt_10 n h10]
  · rename_i h10
    rw [natDigits_of_lt_100 n (by omega) h]
    simp

theorem pad4Chars_all_digits (n : Nat) (c : Char) (hc : c ∈ pad4Chars n) :
    c.isDigit = true := by
  unfold pad4Chars at hc
  rcases List.mem_append.mp hc with h1 | h1
  · rw [List.eq_of_mem_replicate h1]; decide
  · exact natDigits_all_digits n c h1

theorem pad4Chars_ne_nil (n : Nat) : pad4Chars n ≠ [] := by
  unfold pad4Chars
  intro h
  rcases List.append_eq_nil.mp h with ⟨_, h2⟩
  exact natDigits_ne_nil n h2

theorem valOfDigits_pad4Chars (n : Nat) : valOfDigits (pad4Chars n) = n := by
  unfold pad4Chars
  rw [valOfDigits_replicate_zero, valOfDigits_natDigits]

/-! ## Lemmas about takeWhile and dropWhile over digit runs -/

theorem takeWhile_digits_append (ds : List Char) (e : Char) (rest : List Char)
    (hd : ∀ c ∈ ds, c.isDigit = true) (he : e.isDigit = false) :
    (ds ++ e :: rest).takeWhile Char.isDigit = ds := by
  induction ds with
  | nil => simp [List.takeWhile, he]
  | cons d ds ih =>
    have hdd : d.isDigit = true := hd d (by simp)
    simp only [List.cons_append, List.takeWhile_cons, hdd]
    simp [ih (fun c hc => hd c (by simp [hc]))]

theorem dropWhile_digits_append (ds : List Char) (e : Char) (rest : List Char)
    (hd : ∀ c ∈ ds, c.isDigit = true) (he : e.isDigit = false) :
    (ds ++ e :: rest).dropWhile Char.isDigit = e :: rest := by
  induction ds with
  | nil => simp [List.dropWhile, he]
  | cons d ds ih =>
    have hdd : d.isDigit = true := hd d (by simp)
    simp only [List.cons_append, List.dropWhile_cons, hdd]
    simp [ih (fun c hc => hd c (by simp [hc]))]

theorem takeWhile_digits_all (ds : List Char) (hd : ∀ c ∈ ds, c.isDigit = true) :
    ds.takeWhile Char.isDigit = ds := by
  induction ds with
  | nil => rfl
  | cons d ds ih =>
    have hdd : d.isDigit = true := hd d (by simp)
    simp only [List.takeWhile_cons, hdd]
    simp [ih (fun c hc => hd c (by simp [hc]))]

theorem dropWhile_digits_all (ds : List Char) (hd : ∀ c ∈ ds, c.isDigit = true) :
    ds.dropWhile Char.isDigit = [] := by
  induction ds with
  | nil => rfl
  | cons d ds ih =>
    have hdd : d.isDigit = true := hd d (by simp)
    simp only [List.dropWhile_cons, hdd]
    simp [ih (fun c hc => hd c (by simp [hc]))]

/-! ## Round trip of date formatting and parsing -/

theorem parseDateChars_core (yds mds dds : List Char)
    (hy : ∀ c ∈ yds, c.isDigit = true) (hy0 : yds ≠ [])
    (hm : ∀ c ∈ mds, c.isDigit = true) (hm0 : mds ≠ []) (hm2 : mds.length ≤ 2)
    (hd : ∀ c ∈ dds, c.isDigit = true) (hd0 : dds ≠ []) (hd2 : dds.length ≤ 2) :
    parseDateChars (yds ++ '-' :: (mds ++ '-' :: dds)) =
      (if ({ year := (valOfDigits yds : Int), month := valOfDigits mds,
             day := valOfDigits dds } : CalDate).isValid then
        some { year := (valOfDigits yds : Int), month := valOfDigits mds,
               day := valOfDigits dds }
      else none) := by
  obtain ⟨c, ys, rfl⟩ : ∃ c ys, yds = c :: ys := by
    cases yds with
    | nil => exact absurd rfl hy0
    | cons c ys => exact ⟨c, ys, rfl⟩
  have hc : c.isDigit = true := hy c (by simp)
  have hcp : c ≠ '+' := by intro h; subst h; simp at hc
  have hcm : c ≠ '-' := by intro h; subst h; simp at hc
  unfold parseDateChars
  have hmatch :
      (match (c :: ys) ++ '-' :: (mds ++ '-' :: dds) with
        | '+' :: rest => ((1 : Int), rest)
        | '-' :: rest => ((-1 : Int), rest)
        | rest => ((1 : Int), rest)) =
      ((1 : Int), (c :: ys) ++ '-' :: (mds ++ '-' :: dds)) := by
    simp only [List.cons_append]
    rcases hcc : c.val with v
    split
    · rename_i heq; rw [List.cons.injEq] at heq; exact absurd heq.1 hcp
    · rename_i heq; rw [List.cons.injEq] at heq; exact absurd heq.1 hcm
    · rfl
  rw [hmatch]
  simp only
  rw [takeWhile_digits_append _ _ _ hy (by decide),
    dropWhile_digits_append _ _ _ hy (by decide)]
  rw [if_neg (by simp)]
  simp only
  rw [takeWhile_digits_append _ _ _ hm (by decide),
    dropWhile_digits_append _ _ _ hm (by decide)]
  rw [if_neg (by simp [hm0]; omega)]
  simp only
  rw [takeWhile_digits_all _ hd, dropWhile_digits_all _ hd]
  rw [if_neg (by simp [hd0]; omega)]
  simp

theorem parseDateChars_neg (yds mds dds : List Char)
    (hy : ∀ c ∈ yds, c.isDigit = true) (hy0 : yds ≠ [])
    (hm : ∀ c ∈ mds, c.isDigit = true) (hm0 : mds ≠ []) (hm2 : mds.length ≤ 2)
    (hd : ∀ c ∈ dds, c.isDigit = true) (hd0 : dds ≠ []) (hd2 : dds.length ≤ 2) :
    parseDateChars ('-' :: (yds ++ '-' :: (mds ++ '-' :: dds))) =
      (if ({ year := -(valOfDigits yds : Int), month := valOfDigits mds,
             day := valOfDigits dds } : CalDate).isValid then
        some { year := -(valOfDigits yds : Int), month := valOfDigits mds,
               day := valOfDigits dds }
      else none) := by
  unfold parseDateChars
  simp only
  rw [takeWhile_digits_append _ _ _ hy (by decide),
    dropWhile_digits_append _ _ _ hy (by decide)]
  rw [if_neg (by simp [hy0])]
  simp only
  rw [takeWhile_digits_append _ _ _ hm (by decide),
    dropWhile_digits_append _ _ _ hm (by decide)]
  rw [if_neg (by simp [hm0]; omega)]
  simp only
  rw [takeWhile_digits_all _ hd, dropWhile_digits_all _ hd]
  rw [if_neg (by simp [hd0]; omega)]
  simp

theorem parseDateChars_pos (yds mds dds : List Char)
    (hy : ∀ c ∈ yds, c.isDigit = true) (hy0 : yds ≠ [])
    (hm : ∀ c ∈ mds, c.isDigit = true) (hm0 : mds ≠ []) (hm2 : mds.length ≤ 2)
    (hd : ∀ c ∈ dds, c.isDigit = true) (hd0 : dds ≠ []) (hd2 : dds.length ≤ 2) :
    parseDateChars ('+' :: (yds ++ '-' :: (mds ++ '-' :: dds))) =
      (if ({ year := (valOfDigits yds : Int), month := valOfDigits mds,
             day := valOfDigits dds } : CalDate).isValid then
        some { year := (valOfDigits yds : Int), month := valOfDigits mds,
               day := valOfDigits dds }
      else none) := by
  unfold parseDateChars
  simp only
  rw [takeWhile_digits_append _ _ _ hy (by decide),
    dropWhile_digits_append _ _ _ hy (by decide)]
  rw [if_neg (by simp [hy0])]
  simp only
  rw [takeWhile_digits_append _ _ _ hm (by decide),
    dropWhile_digits_append _ _ _ hm (by decide)]
  rw [if_neg (by simp [hm0]; omega)]
  simp only
  rw [takeWhile_digits_all _ hd, dropWhile_digits_all _ hd]
  rw [if_neg (by simp [hd0]; omega)]
  simp

theorem parseTimestamp_formatDate (d : CalDate) (h : d.isValid = true) :
    parseTimestamp (formatDate d) = some d := by
  obtain ⟨y, m, dy⟩ := d
  have hval := h
  unfold CalDate.isValid at hval
  simp only [Bool.and_eq_true, decide_eq_true_eq] at hval
  obtain ⟨⟨⟨hm1, hm12⟩, hd1⟩, hdM⟩ := hval
  have hd31 : dy ≤ 31 := by
    have h2 : daysInMonth y m ≤ 31 := by
      unfold daysInMonth
      split
      · split <;> omega
      · split <;> omega
    omega
  have hmonth : ∀ c ∈ pad2Chars m, c.isDigit = true := pad2Chars_all_digits m
  have hday : ∀ c ∈ pad2Chars dy, c.isDigit = true := pad2Chars_all_digits dy
  have hmonth2 : (pad2Chars m).length ≤ 2 := pad2Chars_length_le m (by omega)
  have hday2 : (pad2Chars dy).length ≤ 2 := pad2Chars_length_le dy (by omega)
  unfold formatDate parseTimestamp
  show parseDateChars (dateChars ⟨y, m, dy⟩) = _
  unfold dateChars yearChars
  simp only
  by_cases hy0 : y < 0
  · rw [if_pos hy0]
    simp only [List.cons_append, List.append_assoc]
    rw [parseDateChars_neg _ _ _ (pad4Chars_all_digits _) (pad4Chars_ne_nil _)
      hmonth (pad2Chars_ne_nil _) hmonth2 hday (pad2Chars_ne_nil _) hday2]
    rw [valOfDigits_pad4Chars, valOfDigits_pad2Chars, valOfDigits_pad2Chars]
    have hyy : -((y.natAbs : Nat) : Int) = y := by omega
    rw [hyy, h]
    simp
  · by_cases hy9 : y ≤ 9999
    · rw [if_neg hy0, if_pos hy9]
      simp only [List.cons_append, List.append_assoc]
      rw [parseDateChars_core _ _ _ (pad4Chars_all_digits _) (pad4Chars_ne_nil _)
        hmonth (pad2Chars_ne_nil _) hmonth2 hday (pad2Chars_ne_nil _) hday2]
      rw [valOfDigits_pad4Chars, valOfDigits_pad2Chars, valOfDigits_pad2Chars]
      have hyy : ((y.toNat : Nat) : Int) = y := by omega
      rw [hyy, h]
      simp
    · rw [if_neg hy0, if_neg hy9]
      simp only [List.cons_append, List.append_assoc]
      rw [parseDateChars_pos _ _ _ (natDigits_all_digits _) (natDigits_ne_nil _)
        hmonth (pad2Chars_ne_nil _) hmonth2 hday (pad2Chars_ne_nil _) hday2]
      rw [valOfDigits_natDigits, valOfDigits_pad2Chars, valOfDigits_pad2Chars]
      have hyy : ((y.toNat : Nat) : Int) = y := by omega
      rw [hyy, h]
      simp

/-! ## Lemmas about the fallible stable merge sort -/

section MergeLemmas

variable {α : Type} (cmp : α → α → Option Ordering)

theorem mergeOpt_nil_right (l : List α) : mergeOpt cmp l [] = some l := by
  cases l <;> simp [mergeOpt]

theorem mergeOpt_perm : ∀ (l₁ l₂ r : List α),
    mergeOpt cmp l₁ l₂ = some r → r.Perm (l₁ ++ l₂) := by
  intro l₁ l₂
  induction l₁, l₂ using mergeOpt.induct cmp with
  | case1 l₂ =>
    intro r h
    simp [mergeOpt] at h
    subst h
    simp
  | case2 l₁ h0 =>
    intro r h
    rw [mergeOpt_nil_right] at h
    cases h
    simp
  | case3 a as b bs hcmp =>
    intro r h
    simp [mergeOpt, hcmp] at h
  | case4 a as b bs hcmp ih =>
    intro r h
    simp only [mergeOpt, hcmp] at h
    cases hm : mergeOpt cmp (a :: as) bs with
    | none => rw [hm] at h; simp at h
    | some r' =>
      rw [hm] at h
      simp at h
      subst h
      exact ((ih r' hm).cons b).trans List.perm_middle.symm
  | case5 a as b bs val hne hcmp ih =>
    intro r h
    rcases val with _ | _ | _
    · simp only [mergeOpt, hcmp] at h
      cases hm : mergeOpt cmp as (b :: bs) with
      | none => rw [hm] at h; simp at h
      | some r' =>
        rw [hm] at h
        simp at h
        subst h
        simpa using (ih r' hm).cons a
    · simp only [mergeOpt, hcmp] at h
      cases hm : mergeOpt cmp as (b :: bs) with
      | none => rw [hm] at h; simp at h
      | some r' =>
        rw [hm] at h
        simp at h
        subst h
        simpa using (ih r' hm).cons a
    · exact absurd rfl hne

theorem mergeOpt_ne_none : ∀ (l₁ l₂ : List α),
    (∀ x ∈ l₁, ∀ y ∈ l₂, cmp x y ≠ none) → mergeOpt cmp l₁ l₂ ≠ none := by
  intro l₁ l₂
  induction l₁, l₂ using mergeOpt.induct cmp with
  | case1 l₂ => intro _; simp [mergeOpt]
  | case2 l₁ h0 => intro _; rw [mergeOpt_nil_right]; simp
  | case3 a as b bs hcmp =>
    intro htot
    exact absurd hcmp (htot a (by simp) b (by simp))
  | case4 a as b bs hcmp ih =>
    intro htot
    simp only [mergeOpt, hcmp]
    have := ih (fun x hx y hy => htot x hx y (by simp [hy]))
    simpa using this
  | case5 a as b bs val hne hcmp ih =>
    intro htot
    have hih := ih (fun x hx y hy => htot x (by simp [hx]) y hy)
    rcases val with _ | _ | _
    · simp only [mergeOpt, hcmp]
      simpa using hih
    · simp only [mergeOpt, hcmp]
      simpa using hih
    · exact absurd rfl hne

theorem mergeOpt_mem {l₁ l₂ r : List α} (h : mergeOpt cmp l₁ l₂ = some r)
    {x : α} (hx : x ∈ r) : x ∈ l₁ ∨ x ∈ l₂ := by
  have := (mergeOpt_perm cmp l₁ l₂ r h).mem_iff.mp hx
  simpa using this

theorem mergeOpt_pairwise (P : α → Prop)
    (htrans : ∀ a b c, P a → P b → P c →
      cmp a b ≠ some .gt → cmp b c ≠ some .gt → cmp a c ≠ some .gt)
    (hanti : ∀ a b, P a → P b → cmp a b = some .gt → cmp b a ≠ some .gt) :
    ∀ (l₁ l₂ r : List α), (∀ x ∈ l₁, P x) → (∀ x ∈ l₂, P x) →
      l₁.Pairwise (fun x y => cmp x y ≠ some .gt) →
      l₂.Pairwise (fun x y => cmp x y ≠ some .gt) →
      mergeOpt cmp l₁ l₂ = some r →
      r.Pairwise (fun x y => cmp x y ≠ some .gt) := by
  intro l₁ l₂
  induction l₁, l₂ using mergeOpt.induct cmp with
  | case1 l₂ =>
    intro r _ _ _ hp₂ h
    simp [mergeOpt] at h
    subst h
    exact hp₂
  | case2 l₁ h0 =>
    intro r _ _ hp₁ _ h
    rw [mergeOpt_nil_right] at h
    cases h
    exact hp₁
  | case3 a as b bs hcmp =>
    intro r _ _ _ _ h
    simp [mergeOpt, hcmp] at h
  | case4 a as b bs hcmp ih =>
    intro r hP₁ hP₂ hp₁ hp₂ h
    simp only [mergeOpt, hcmp] at h
    cases hm : mergeOpt cmp (a :: as) bs with
    | none => rw [hm] at h; simp at h
    | some r' =>
      rw [hm] at h
      simp at h
      subst h
      have hPb : P b := hP₂ b (by simp)
      have hPa : P a := hP₁ a (by simp)
      have hba : cmp b a ≠ some .gt := hanti a b hPa hPb hcmp
      refine List.Pairwise.cons ?_ ?_
      · intro x hx
        rcases mergeOpt_mem cmp hm hx with hx1 | hx1
        · rcases List.mem_cons.mp hx1 with rfl | hx2
          · exact hba
          · exact htrans b a x hPb hPa (hP₁ x (by simp [hx2])) hba
              (List.rel_of_pairwise_cons hp₁ hx2)
        · exact List.rel_of_pairwise_cons hp₂ hx1
      · exact ih r' hP₁ (fun x hx => hP₂ x (by simp [hx])) hp₁ hp₂.of_cons hm
  | case5 a as b bs val hne hcmp ih =>
    intro r hP₁ hP₂ hp₁ hp₂ h
    have hab : cmp a b ≠ some .gt := by
      rw [hcmp]
      intro hc
      exact hne (by injection hc)
    have hstep : ∀ r', mergeOpt cmp as (b :: bs) = some r' →
        (a :: r').Pairwise (fun x y => cmp x y ≠ some .gt) := by
      intro r' hm
      have hPa : P a := hP₁ a (by simp)
      have hPb : P b := hP₂ b (by simp)
      refine List.Pairwise.cons ?_ ?_
      · intro x hx
        rcases mergeOpt_mem cmp hm hx with hx1 | hx1
        · exact List.rel_of_pairwise_cons hp₁ hx1
        · rcases List.mem_cons.mp hx1 with rfl | hx2
          · exact hab
          · exact htrans a b x hPa hPb (hP₂ x (by simp [hx2])) hab
              (List.rel_of_pairwise_cons hp₂ hx2)
      · exact ih r' (fun x hx => hP₁ x (by simp [hx])) hP₂ hp₁.of_cons hp₂ hm
    rcases val with _ | _ | _
    · simp only [mergeOpt, hcmp] at h
      cases hm : mergeOpt cmp as (b :: bs) with
      | none => rw [hm] at h; simp at h
      | some r' =>
        rw [hm] at h
        simp at h
        subst h
        exact hstep r' hm
    · simp only [mergeOpt, hcmp] at h
      cases hm : mergeOpt cmp as (b :: bs) with
      | none => rw [hm] at h; simp at h
      | some r' =>
        rw [hm] at h
        simp at h
        subst h
        exact hstep r' hm
    · exact absurd rfl hne

theorem mergeOpt_filter (P : α → Prop) (q : α → Bool)
    (hrefl : ∀ a, P a → cmp a a ≠ some .gt)
    (hsep : ∀ a x b, P a → P x → P b → cmp a b = some .gt →
      cmp a x ≠ some .gt → q x = true → q b = true → False) :
    ∀ (l₁ l₂ r : List α), (∀ x ∈ l₁, P x) → (∀ x ∈ l₂, P x) →
      l₁.Pairwise (fun x y => cmp x y ≠ some .gt) →
      mergeOpt cmp l₁ l₂ = some r →
      r.filter q = l₁.filter q ++ l₂.filter q := by
  intro l₁ l₂
  induction l₁, l₂ using mergeOpt.induct cmp with
  | case1 l₂ =>
    intro r _ _ _ h
    simp [mergeOpt] at h
    subst h
    simp
  | case2 l₁ h0 =>
    intro r _ _ _ h
    rw [mergeOpt_nil_right] at h
    cases h
    simp
  | case3 a as b bs hcmp =>
    intro r _ _ _ h
    simp [mergeOpt, hcmp] at h
  | case4 a as b bs hcmp ih =>
    intro r hP₁ hP₂ hp₁ h
    simp only [mergeOpt, hcmp] at h
    cases hm : mergeOpt cmp (a :: as) bs with
    | none => rw [hm] at h; simp at h
    | some r' =>
      rw [hm] at h
      simp at h
      subst h
      have hih := ih r' hP₁ (fun x hx => hP₂ x (by simp [hx])) hp₁ hm
      by_cases hqb : q b = true
      · have hnone : ∀ x ∈ a :: as, q x = false := by
          intro x hx
          by_contra hq
          rw [Bool.not_eq_false] at hq
          have hPb : P b := hP₂ b (by simp)
          have hPa : P a := hP₁ a (by simp)
          have hPx : P x := hP₁ x hx
          rcases List.mem_cons.mp hx with rfl | hx2
          · exact hsep x x b hPx hPx hPb hcmp (hrefl x hPx) hq hqb
          · exact hsep a x b hPa hPx hPb hcmp
              (List.rel_of_pairwise_cons hp₁ hx2) hq hqb
        have hfilt : (a :: as).filter q = [] :=
          List.filter_eq_nil_iff.mpr (by
            intro x hx
            simp [hnone x hx])
        rw [List.filter_cons_of_pos hqb, hih, hfilt, List.filter_cons_of_pos hqb]
        simp
      · have h1 : (b :: r').filter q = r'.filter q :=
          List.filter_cons_of_neg (by simpa using hqb)
        have h2 : (b :: bs).filter q = bs.filter q :=
          List.filter_cons_of_neg (by simpa using hqb)
        rw [h1, hih, h2]
  | case5 a as b bs val hne hcmp ih =>
    intro r hP₁ hP₂ hp₁ h
    have hstep : ∀ r', mergeOpt cmp as (b :: bs) = some r' →
        (a :: r').filter q = ((a :: as).filter q) ++ (b :: bs).filter q := by
      intro r' hm
      have hih := ih r' (fun x hx => hP₁ x (by simp [hx])) hP₂ hp₁.of_cons hm
      by_cases hqa : q a = true
      · rw [List.filter_cons_of_pos hqa, hih, List.filter_cons_of_pos hqa]
        simp
      · have h1 : (a :: r').filter q = r'.filter q :=
          List.filter_cons_of_neg (by simpa using hqa)
        have h2 : (a :: as).filter q = as.filter q :=
          List.filter_cons_of_neg (by simpa using hqa)
        rw [h1, hih, h2]
    rcases val with _ | _ | _
    · simp only [mergeOpt, hcmp] at h
      cases hm : mergeOpt cmp as (b :: bs) with
      | none => rw [hm] at h; simp at h
      | some r' =>
        rw [hm] at h
        simp at h
        subst h
        exact hstep r' hm
    · simp only [mergeOpt, hcmp] at h
      cases hm : mergeOpt cmp as (b :: bs) with
      | none => rw [hm] at h; simp at h
      | some r' =>
        rw [hm] at h
        simp at h
        subst h
        exact hstep r' hm
    · exact absurd rfl hne

theorem splitHalf_append (l : List α) : (splitHalf l).1 ++ (splitHalf l).2 = l :=
  List.take_append_drop _ _

theorem mem_of_mem_splitHalf_left {l : List α} {x : α}
    (h : x ∈ (splitHalf l).1) : x ∈ l :=
  List.mem_of_mem_take h

theorem mem_of_mem_splitHalf_right {l : List α} {x : α}
    (h : x ∈ (splitHalf l).2) : x ∈ l :=
  List.mem_of_mem_drop h

theorem mergeSortOpt_perm : ∀ (l r : List α),
    mergeSortOpt cmp l = some r → r.Perm l := by
  intro l
  induction l using mergeSortOpt.induct cmp with
  | case1 =>
    intro r h
    simp [mergeSortOpt] at h
    subst h
    rfl
  | case2 a =>
    intro r h
    simp [mergeSortOpt] at h
    subst h
    rfl
  | case3 a b rest halves r₁ r₂ h₂ h₁ ih₁ ih₂ =>
    intro r h
    rw [show halves = splitHalf (a :: b :: rest) from rfl] at h₁ h₂ ih₁ ih₂
    simp only [mergeSortOpt, h₁, h₂] at h
    have hp := mergeOpt_perm cmp r₁ r₂ r h
    exact (hp.trans ((ih₁ r₁ h₁).append (ih₂ r₂ h₂))).trans
      (by rw [splitHalf_append])
  | case4 a b rest halves hfail ih₁ ih₂ =>
    intro r h
    rw [show halves = splitHalf (a :: b :: rest) from rfl] at hfail
    simp only [mergeSortOpt] at h
    cases h₁ : mergeSortOpt cmp (splitHalf (a :: b :: rest)).1 with
    | none => simp at h
    | some r₁ =>
      cases h₂ : mergeSortOpt cmp (splitHalf (a :: b :: rest)).2 with
      | none => simp at h
      | some r₂ => exact absurd trivial (fun _ => hfail r₁ r₂ h₁ h₂)

theorem mergeSortOpt_ne_none : ∀ (l : List α),
    (∀ x ∈ l, ∀ y ∈ l, cmp x y ≠ none) → mergeSortOpt cmp l ≠ none := by
  intro l
  induction l using mergeSortOpt.induct cmp with
  | case1 => intro _; simp [mergeSortOpt]
  | case2 a => intro _; simp [mergeSortOpt]
  | case3 a b rest halves r₁ r₂ h₂ h₁ ih₁ ih₂ =>
    intro htot
    rw [show halves = splitHalf (a :: b :: rest) from rfl] at h₁ h₂ ih₁ ih₂
    simp only [mergeSortOpt, h₁, h₂]
    apply mergeOpt_ne_none
    intro x hx y hy
    have hx' : x ∈ a :: b :: rest :=
      mem_of_mem_splitHalf_left ((mergeSortOpt_perm cmp _ r₁ h₁).mem_iff.mp hx)
    have hy' : y ∈ a :: b :: rest :=
      mem_of_mem_splitHalf_right ((mergeSortOpt_perm cmp _ r₂ h₂).mem_iff.mp hy)
    exact htot x hx' y hy'
  | case4 a b rest halves hfail ih₁ ih₂ =>
    intro htot
    rw [show halves = splitHalf (a :: b :: rest) from rfl] at hfail ih₁ ih₂
    exfalso
    have htot₁ : ∀ x ∈ (splitHalf (a :: b :: rest)).1,
        ∀ y ∈ (splitHalf (a :: b :: rest)).1, cmp x y ≠ none := fun x hx y hy =>
      htot x (mem_of_mem_splitHalf_left hx) y (mem_of_mem_splitHalf_left hy)
    have htot₂ : ∀ x ∈ (splitHalf (a :: b :: rest)).2,
        ∀ y ∈ (splitHalf (a :: b :: rest)).2, cmp x y ≠ none := fun x hx y hy =>
      htot x (mem_of_mem_splitHalf_right hx) y (mem_of_mem_splitHalf_right hy)
    obtain ⟨r₁, h₁⟩ := Option.ne_none_iff_exists'.mp (ih₁ htot₁)
    obtain ⟨r₂, h₂⟩ := Option.ne_none_iff_exists'.mp (ih₂ htot₂)
    exact hfail r₁ r₂ h₁ h₂

theorem mergeSortOpt_pairwise (P : α → Prop)
    (htrans : ∀ a b c, P a → P b → P c →
      cmp a b ≠ some .gt → cmp b c ≠ some .gt → cmp a c ≠ some .gt)
    (hanti : ∀ a b, P a → P b → cmp a b = some .gt → cmp b a ≠ some .gt) :
    ∀ (l r : List α), (∀ x ∈ l, P x) → mergeSortOpt cmp l = some r →
      r.Pairwise (fun x y => cmp x y ≠ some .gt) := by
  intro l
  induction l using mergeSortOpt.induct cmp with
  | case1 =>
    intro r _ h
    simp [mergeSortOpt] at h
    subst h
    simp
  | case2 a =>
    intro r _ h
    simp [mergeSortOpt] at h
    subst h
    simp
  | case3 a b rest halves r₁ r₂ h₂ h₁ ih₁ ih₂ =>
    intro r hP h
    rw [show halves = splitHalf (a :: b :: rest) from rfl] at h₁ h₂ ih₁ ih₂
    simp only [mergeSortOpt, h₁, h₂] at h
    have hP₁ : ∀ x ∈ (splitHalf (a :: b :: rest)).1, P x := fun x hx =>
      hP x (mem_of_mem_splitHalf_left hx)
    have hP₂ : ∀ x ∈ (splitHalf (a :: b :: rest)).2, P x := fun x hx =>
      hP x (mem_of_mem_splitHalf_right hx)
    have hPr₁ : ∀ x ∈ r₁, P x := fun x hx =>
      hP₁ x ((mergeSortOpt_perm cmp _ r₁ h₁).mem_iff.mp hx)
    have hPr₂ : ∀ x ∈ r₂, P x := fun x hx =>
      hP₂ x ((mergeSortOpt_perm cmp _ r₂ h₂).mem_iff.mp hx)
    exact mergeOpt_pairwise cmp P htrans hanti r₁ r₂ r hPr₁ hPr₂
      (ih₁ r₁ hP₁ h₁) (ih₂ r₂ hP₂ h₂) h
  | case4 a b rest halves hfail ih₁ ih₂ =>
    intro r hP h
    rw [show halves = splitHalf (a :: b :: rest) from rfl] at hfail
    simp only [mergeSortOpt] at h
    cases h₁ : mergeSortOpt cmp (splitHalf (a :: b :: rest)).1 with
    | none => simp at h
    | some r₁ =>
      cases h₂ : mergeSortOpt cmp (splitHalf (a :: b :: rest)).2 with
      | none => simp at h
      | some r₂ => exact absurd trivial (fun _ => hfail r₁ r₂ h₁ h₂)

theorem mergeSortOpt_filter (P : α → Prop) (q : α → Bool)
    (htrans : ∀ a b c, P a → P b → P c →
      cmp a b ≠ some .gt → cmp b c ≠ some .gt → cmp a c ≠ some .gt)
    (hanti : ∀ a b, P a → P b → cmp a b = some .gt → cmp b a ≠ some .gt)
    (hrefl : ∀ a, P a → cmp a a ≠ some .gt)
    (hsep : ∀ a x b, P a → P x → P b → cmp a b = some .gt →
      cmp a x ≠ some .gt → q x = true → q b = true → False) :
    ∀ (l r : List α), (∀ x ∈ l, P x) → mergeSortOpt cmp l = some r →
      r.filter q = l.filter q := by
  intro l
  induction l using mergeSortOpt.induct cmp with
  | case1 =>
    intro r _ h
    simp [mergeSortOpt] at h
    subst h
    rfl
  | case2 a =>
    intro r _ h
    simp [mergeSortOpt] at h
    subst h
    rfl
  | case3 a b rest halves r₁ r₂ h₂ h₁ ih₁ ih₂ =>
    intro r hP h
    rw [show halves = splitHalf (a :: b :: rest) from rfl] at h₁ h₂ ih₁ ih₂
    simp only [mergeSortOpt, h₁, h₂] at h
    have hP₁ : ∀ x ∈ (splitHalf (a :: b :: rest)).1, P x := fun x hx =>
      hP x (mem_of_mem_splitHalf_left hx)
    have hP₂ : ∀ x ∈ (splitHalf (a :: b :: rest)).2, P x := fun x hx =>
      hP x (mem_of_mem_splitHalf_right hx)
    have hPr₁ : ∀ x ∈ r₁, P x := fun x hx =>
      hP₁ x ((mergeSortOpt_perm cmp _ r₁ h₁).mem_iff.mp hx)
    have hPr₂ : ∀ x ∈ r₂, P x := fun x hx =>
      hP₂ x ((mergeSortOpt_perm cmp _ r₂ h₂).mem_iff.mp hx)
    have hsorted₁ := mergeSortOpt_pairwise cmp P htrans hanti _ r₁ hP₁ h₁
    have hmf := mergeOpt_filter cmp P q hrefl hsep r₁ r₂ r hPr₁ hPr₂ hsorted₁ h
    rw [hmf, ih₁ r₁ hP₁ h₁, ih₂ r₂ hP₂ h₂, ← List.filter_append, splitHalf_append]
  | case4 a b rest halves hfail ih₁ ih₂ =>
    intro r hP h
    rw [show halves = splitHalf (a :: b :: rest) from rfl] at hfail
    simp only [mergeSortOpt] at h
    cases h₁ : mergeSortOpt cmp (splitHalf (a :: b :: rest)).1 with
    | none => simp at h
    | some r₁ =>
      cases h₂ : mergeSortOpt cmp (splitHalf (a :: b :: rest)).2 with
      | none => simp at h
      | some r₂ => exact absurd trivial (fun _ => hfail r₁ r₂ h₁ h₂)

theorem mergeSortOpt_none_of_bad (P : α → Prop)
    (hbad : ∀ x y : α, ¬ P x → cmp x y = none ∧ cmp y x = none) :
    ∀ (n : Nat) (l : List α), l.length ≤ n → 2 ≤ l.length →
      (∃ x ∈ l, ¬ P x) → mergeSortOpt cmp l = none := by
  intro n
  induction n with
  | zero =>
    intro l h1 h2 _
    omega
  | succ n ih =>
    rintro l hlen h2 ⟨x, hxl, hxP⟩
    obtain ⟨a, b, rest, rfl⟩ : ∃ a b rest, l = a :: b :: rest := by
      cases l with
      | nil => simp at h2
      | cons a t =>
        cases t with
        | nil => simp at h2
        | cons b rest => exact ⟨a, b, rest, rfl⟩
    have hsplit := splitHalf_append (a :: b :: rest)
    have hlen1 : (splitHalf (a :: b :: rest)).1.length =
        ((a :: b :: rest).length + 1) / 2 := by
      simp [splitHalf, List.length_take]
      omega
    have hlen2 : (splitHalf (a :: b :: rest)).2.length =
        (a :: b :: rest).length - ((a :: b :: rest).length + 1) / 2 := by
      simp [splitHalf, List.length_drop]
    have hxhalf : x ∈ (splitHalf (a :: b :: rest)).1 ∨
        x ∈ (splitHalf (a :: b :: rest)).2 := by
      rw [← List.mem_append, hsplit]
      exact hxl
    simp only [mergeSortOpt]
    rcases hxhalf with hx1 | hx1
    · by_cases hbig : 2 ≤ (splitHalf (a :: b :: rest)).1.length
      · have hnone := ih (splitHalf (a :: b :: rest)).1
          (by simp at hlen hlen1 ⊢; omega) hbig ⟨x, hx1, hxP⟩
        rw [hnone]
      · have hone : (splitHalf (a :: b :: rest)).1.length = 1 := by
          simp at hlen1
          omega
        have hrest : rest = [] := by
          simp at hlen1
          cases rest with
          | nil => rfl
          | cons c t => simp at hone hlen1; omega
        subst hrest
        have hs : splitHalf [a, b] = ([a], [b]) := by simp [splitHalf]
        have hxa : x = a := by
          rw [hs] at hx1
          simpa using hx1
        subst hxa
        rw [hs]
        simp [mergeSortOpt, mergeOpt, (hbad x b hxP).1]
    · by_cases hbig : 2 ≤ (splitHalf (a :: b :: rest)).2.length
      · have hnone := ih (splitHalf (a :: b :: rest)).2
          (by simp at hlen hlen2 ⊢; omega) hbig ⟨x, hx1, hxP⟩
        rw [hnone]
        cases mergeSortOpt cmp (splitHalf (a :: b :: rest)).1 <;> rfl
      · have hone : (splitHalf (a :: b :: rest)).2.length = 1 := by
          simp at hlen2
          omega
        obtain ⟨z, hz⟩ := List.length_eq_one.mp hone
        have hxz : x = z := by
          rw [hz] at hx1
          simpa using hx1
        subst hxz
        cases h₁ : mergeSortOpt cmp (splitHalf (a :: b :: rest)).1 with
        | none => rfl
        | some r₁ =>
          have hr₁ : 1 ≤ r₁.length := by
            have := (mergeSortOpt_perm cmp _ r₁ h₁).length_eq
            simp at hlen1
            omega
          obtain ⟨c, r₁', rfl⟩ : ∃ c r₁', r₁ = c :: r₁' := by
            cases r₁ with
            | nil => simp at hr₁
            | cons c r₁' => exact ⟨c, r₁', rfl⟩
          have h₂ : mergeSortOpt cmp (splitHalf (a :: b :: rest)).2 = some [x] := by
            rw [hz]
            simp [mergeSortOpt]
          rw [h₂]
          simp [mergeOpt, (hbad x c hxP).2]

end MergeLemmas

/-! ## Properties of the service cost comparator -/

/-- Finiteness of the amount of a service cost (the comparisons of f32
PartialOrd succeed exactly on such costs). -/
def finiteAmount (s : ServiceCost) : Prop := s.cost.amount ≠ none

theorem compareQ_eq_gt_iff (a b : Rat) : compareQ a b = .gt ↔ b < a := by
  unfold compareQ
  split
  · rename_i h
    simp only [reduceCtorEq, false_iff, not_lt]
    exact le_of_lt h
  · split
    · rename_i h
      subst h
      simp
    · rename_i h1 h2
      simp only [true_iff]
      rcases lt_trichotomy a b with h | h | h
      · exact absurd h h1
      · exact absurd h h2
      · exact h

theorem compareString_eq_gt_iff (a b : String) : compareString a b = .gt ↔ b < a := by
  unfold compareString
  split
  · rename_i h
    simp only [reduceCtorEq, false_iff, not_lt]
    exact le_of_lt h
  · split
    · rename_i h
      subst h
      simp
    · rename_i h1 h2
      simp only [true_iff]
      rcases lt_trichotomy a b with h | h | h
      · exact absurd h h1
      · exact absurd h h2
      · exact h

theorem compareQ_eq_lt_iff (a b : Rat) : compareQ a b = .lt ↔ a < b := by
  unfold compareQ
  split
  · simp_all
  · split
    · rename_i h1 h2
      subst h2
      simp
    · rename_i h1 h2
      simp only [reduceCtorEq, false_iff]
      exact h1

theorem compareQ_eq_eq_iff (a b : Rat) : compareQ a b = .eq ↔ a = b := by
  unfold compareQ
  split
  · rename_i h
    simp only [reduceCtorEq, false_iff]
    exact ne_of_lt h
  · split
    · simp_all
    · simp_all

theorem serviceCostComparator_gt_iff (a b : ServiceCost) (qa qb : Rat)
    (ha : a.cost.amount = some qa) (hb : b.cost.amount = some qb) :
    serviceCostComparator a b = some .gt ↔
      (qa < qb ∨ (qa = qb ∧ a.cost.unit < b.cost.unit)) := by
  unfold serviceCostComparator Cost.cmpOption cmpAmount
  rw [ha, hb]
  simp only
  rcases hq : compareQ qb qa with _ | _ | _
  · have hlt : qb < qa := (compareQ_eq_lt_iff qb qa).mp hq
    have h1 : ¬ qa < qb := not_lt.mpr (le_of_lt hlt)
    have h2 : qa ≠ qb := ne_of_gt hlt
    simp [h1, h2]
  · have heq : qb = qa := (compareQ_eq_eq_iff qb qa).mp hq
    subst heq
    simp [compareString_eq_gt_iff, lt_irrefl]
  · have hlt : qa < qb := (compareQ_eq_gt_iff qb qa).mp hq
    simp [hlt]

theorem serviceCostComparator_ne_none (a b : ServiceCost)
    (ha : finiteAmount a) (hb : finiteAmount b) :
    serviceCostComparator a b ≠ none := by
  unfold finiteAmount at ha hb
  obtain ⟨qa, ha'⟩ := Option.ne_none_iff_exists'.mp ha
  obtain ⟨qb, hb'⟩ := Option.ne_none_iff_exists'.mp hb
  unfold serviceCostComparator Cost.cmpOption cmpAmount
  rw [ha', hb']
  dsimp only
  rcases hq : compareQ qb qa with _ | _ | _ <;> simp

theorem serviceCostComparator_none_left (x y : ServiceCost)
    (hx : ¬ finiteAmount x) :
    serviceCostComparator x y = none ∧ serviceCostComparator y x = none := by
  unfold finiteAmount at hx
  rw [not_ne_iff] at hx
  constructor
  · unfold serviceCostComparator Cost.cmpOption cmpAmount
    rw [hx]
    cases y.cost.amount <;> simp
  · unfold serviceCostComparator Cost.cmpOption cmpAmount
    rw [hx]

theorem serviceCostComparator_trans (a b c : ServiceCost)
    (ha : finiteAmount a) (hb : finiteAmount b) (hc : finiteAmount c)
    (hab : serviceCostComparator a b ≠ some .gt)
    (hbc : serviceCostComparator b c ≠ some .gt) :
    serviceCostComparator a c ≠ some .gt := by
  obtain ⟨qa, ha'⟩ := Option.ne_none_iff_exists'.mp ha
  obtain ⟨qb, hb'⟩ := Option.ne_none_iff_exists'.mp hb
  obtain ⟨qc, hc'⟩ := Option.ne_none_iff_exists'.mp hc
  simp only [ne_eq] at hab hbc ⊢
  rw [serviceCostComparator_gt_iff a b qa qb ha' hb'] at hab
  rw [serviceCostComparator_gt_iff b c qb qc hb' hc'] at hbc
  rw [serviceCostComparator_gt_iff a c qa qc ha' hc']
  push_neg at hab hbc ⊢
  obtain ⟨hab1, hab2⟩ := hab
  obtain ⟨hbc1, hbc2⟩ := hbc
  have h1 : qb ≤ qa := hab1
  have h2 : qc ≤ qb := hbc1
  constructor
  · exact le_trans h2 h1
  · intro hqac
    have hqab : qa = qb := by
      apply le_antisymm _ h1
      rw [hqac]
      exact h2
    have hqbc : qb = qc := by rw [← hqab, hqac]
    have hu1 : c.cost.unit ≤ b.cost.unit := hbc2 hqbc
    have hu2 : b.cost.unit ≤ a.cost.unit := hab2 hqab
    exact le_trans hu1 hu2


theorem serviceCostComparator_antisymm (a b : ServiceCost)
    (ha : finiteAmount a) (hb : finiteAmount b)
    (hab : serviceCostComparator a b = some .gt) :
    serviceCostComparator b a ≠ some .gt := by
  obtain ⟨qa, ha'⟩ := Option.ne_none_iff_exists'.mp ha
  obtain ⟨qb, hb'⟩ := Option.ne_none_iff_exists'.mp hb
  rw [serviceCostComparator_gt_iff a b qa qb ha' hb'] at hab
  simp only [ne_eq]
  rw [serviceCostComparator_gt_iff b a qb qa hb' ha']
  push_neg
  rcases hab with h | ⟨h, hu⟩
  · refine ⟨le_of_lt h, fun he => ?_⟩
    exact absurd (he ▸ h) (lt_irrefl _)
  · exact ⟨le_of_eq h, fun _ => le_of_lt hu⟩

theorem serviceCostComparator_irrefl (a : ServiceCost) (ha : finiteAmount a) :
    serviceCostComparator a a ≠ some .gt := by
  obtain ⟨qa, ha'⟩ := Option.ne_none_iff_exists'.mp ha
  simp only [ne_eq]
  rw [serviceCostComparator_gt_iff a a qa qa ha' ha']
  push_neg
  exact ⟨le_refl _, fun _ => le_refl _⟩

theorem serviceCostComparator_sep (c : Cost) (a x b : ServiceCost)
    (ha : finiteAmount a) (hx : finiteAmount x) (hb : finiteAmount b)
    (hab : serviceCostComparator a b = some .gt)
    (hax : serviceCostComparator a x ≠ some .gt)
    (hqx : decide (x.cost = c) = true) (hqb : decide (b.cost = c) = true) :
    False := by
  obtain ⟨qa, ha'⟩ := Option.ne_none_iff_exists'.mp ha
  obtain ⟨qx, hx'⟩ := Option.ne_none_iff_exists'.mp hx
  obtain ⟨qb, hb'⟩ := Option.ne_none_iff_exists'.mp hb
  have hxb : x.cost = b.cost := by
    rw [of_decide_eq_true hqx, of_decide_eq_true hqb]
  have hqq : qx = qb := by
    have hss : some qx = some qb := by rw [← hx', ← hb', hxb]
    injection hss
  have huu : x.cost.unit = b.cost.unit := by rw [hxb]
  rw [serviceCostComparator_gt_iff a b qa qb ha' hb'] at hab
  simp only [ne_eq] at hax
  rw [serviceCostComparator_gt_iff a x qa qx ha' hx'] at hax
  push_neg at hax
  rcases hab with h | ⟨h, hu⟩
  · rw [← hqq] at h
    exact absurd h (not_lt.mpr hax.1)
  · have hq : qa = qx := by rw [h, ← hqq]
    have hle := hax.2 hq
    rw [huu] at hle
    exact absurd hu (not_lt.mpr hle)

theorem serviceCostComparator_gt_iff_lexLt (u v : ServiceCost)
    (hu : finiteAmount u) (hv : finiteAmount v) :
    serviceCostComparator u v = some .gt ↔ Cost.lexLt u.cost v.cost := by
  obtain ⟨qu, hu'⟩ := Option.ne_none_iff_exists'.mp hu
  obtain ⟨qv, hv'⟩ := Option.ne_none_iff_exists'.mp hv
  rw [serviceCostComparator_gt_iff u v qu qv hu' hv']
  unfold Cost.lexLt
  constructor
  · intro h
    exact ⟨qu, qv, hu', hv', h⟩
  · rintro ⟨qa, qb, ha, hb, h⟩
    rw [hu'] at ha
    rw [hv'] at hb
    have hqa : qu = qa := by injection ha
    have hqb : qv = qb := by injection hb
    rw [hqa, hqb]
    exact h

/-! ## Sort-level consequences for service costs -/

theorem sortServiceCosts_perm (l r : List ServiceCost)
    (h : sortServiceCosts l = some r) : r.Perm l :=
  mergeSortOpt_perm serviceCostComparator l r h

theorem sortServiceCosts_some_of_finite (l : List ServiceCost)
    (hfin : ∀ s ∈ l, finiteAmount s) : ∃ r, sortServiceCosts l = some r :=
  Option.ne_none_iff_exists'.mp
    (mergeSortOpt_ne_none serviceCostComparator l
      (fun x hx y hy => serviceCostComparator_ne_none x y (hfin x hx) (hfin y hy)))

theorem sortServiceCosts_none_of_nan (l : List ServiceCost)
    (h2 : 2 ≤ l.length) (hbad : ∃ s ∈ l, s.cost.amount = none) :
    sortServiceCosts l = none := by
  apply mergeSortOpt_none_of_bad serviceCostComparator finiteAmount
    (fun x y hx => serviceCostComparator_none_left x y hx) l.length l (le_refl _) h2
  obtain ⟨s, hs, h⟩ := hbad
  exact ⟨s, hs, by simp [finiteAmount, h]⟩

theorem sortServiceCosts_pairwise (l r : List ServiceCost)
    (hfin : ∀ s ∈ l, finiteAmount s) (h : sortServiceCosts l = some r) :
    r.Pairwise (fun u v => serviceCostComparator u v ≠ some .gt) :=
  mergeSortOpt_pairwise serviceCostComparator finiteAmount
    serviceCostComparator_trans serviceCostComparator_antisymm l r hfin h

theorem sortServiceCosts_filter_stable (c : Cost) (l r : List ServiceCost)
    (hfin : ∀ s ∈ l, finiteAmount s) (h : sortServiceCosts l = some r) :
    r.filter (fun s => decide (s.cost = c)) =
      l.filter (fun s => decide (s.cost = c)) :=
  mergeSortOpt_filter serviceCostComparator finiteAmount
    (fun s => decide (s.cost = c))
    serviceCostComparator_trans serviceCostComparator_antisymm
    serviceCostComparator_irrefl (serviceCostComparator_sep c) l r hfin h

/-! ## Helper lemmas about mapExcept -/

theorem mapExcept_ok_forall₂ {α β ε : Type} (f : α → Except ε β) :
    ∀ (l : List α) (out : List β), mapExcept f l = .ok out →
      List.Forall₂ (fun a b => f a = .ok b) l out := by
  intro l
  induction l with
  | nil =>
    intro out h
    simp only [mapExcept, Except.ok.injEq] at h
    subst h
    exact List.Forall₂.nil
  | cons a as ih =>
    intro out h
    simp only [mapExcept] at h
    cases hf : f a with
    | error e => rw [hf] at h; exact Except.noConfusion h
    | ok b =>
      rw [hf] at h
      cases hm : mapExcept f as with
      | error e => rw [hm] at h; simp [Except.map] at h
      | ok bs =>
        rw [hm] at h
        simp only [Except.map, Except.ok.injEq] at h
        subst h
        exact List.Forall₂.cons hf (ih bs hm)

theorem mapExcept_error_of_mem {α β ε : Type} (f : α → Except ε β) :
    ∀ (l : List α) (g : α) (e : ε), g ∈ l → f g = .error e →
      ∃ e', mapExcept f l = .error e' := by
  intro l
  induction l with
  | nil =>
    intro g e h _
    simp at h
  | cons a as ih =>
    intro g e hg hf
    simp only [mapExcept]
    rcases List.mem_cons.mp hg with rfl | hg'
    · rw [hf]
      exact ⟨e, rfl⟩
    · cases hfa : f a with
      | error e' => exact ⟨e', rfl⟩
      | ok b =>
        obtain ⟨e', he'⟩ := ih g e hg' hf
        rw [he']
        exact ⟨e', rfl⟩

/-! ## Claim C1: the report date range boundary rule -/

/-- C1: for a valid reference date on the first day of a month,
ReportDateRange::new starts the range at the first day of the previous
month; for any other valid reference date it starts at the first day of
the current month; the end is the reference date in both cases. -/
theorem C1_report_date_range (d : CalDate) (h : d.isValid = true) :
    (d.day = 1 →
      ReportDateRange.new d =
        { start_date :=
            { year := if d.month = 1 then d.year - 1 else d.year,
              month := if d.month = 1 then 12 else d.month - 1,
              day := 1 },
          end_date := d }) ∧
    (d.day ≠ 1 →
      ReportDateRange.new d =
        { start_date := { year := d.year, month := d.month, day := 1 },
          end_date := d }) := by
  obtain ⟨y, m, dy⟩ := d
  have hval := h
  unfold CalDate.isValid at hval
  simp only [Bool.and_eq_true, decide_eq_true_eq] at hval
  obtain ⟨⟨⟨hm1, hm12⟩, hd1⟩, hdM⟩ := hval
  constructor
  · intro hday
    simp only at hday
    subst hday
    unfold ReportDateRange.new CalDate.withDay CalDate.pred
    by_cases hm : m = 1
    · subst hm
      simp
    · have h1m : 1 < m := by omega
      simp [hm, h1m]
  · intro hday
    simp only at hday
    unfold ReportDateRange.new CalDate.withDay
    simp only
    rw [if_neg (by
      intro heq
      rw [CalDate.mk.injEq] at heq
      exact hday heq.2.2)]

/-- Witness for C1 at the two reference dates used as examples by the
design document. -/
theorem C1_report_date_range_witness :
    (⟨2021, 7, 1⟩ : CalDate).isValid = true ∧
    ReportDateRange.new ⟨2021, 7, 1⟩ =
      { start_date := ⟨2021, 6, 1⟩, end_date := ⟨2021, 7, 1⟩ } ∧
    (⟨2021, 7, 18⟩ : CalDate).isValid = true ∧
    ReportDateRange.new ⟨2021, 7, 18⟩ =
      { start_date := ⟨2021, 7, 1⟩, end_date := ⟨2021, 7, 18⟩ } := by
  refine ⟨by decide, ?_, by decide, ?_⟩
  · have h := (C1_report_date_range ⟨2021, 7, 1⟩ (by decide)).1 (by decide)
    simpa using h
  · have h := (C1_report_date_range ⟨2021, 7, 18⟩ (by decide)).2 (by decide)
    simpa using h

/-! ## Claim C4: the message header format -/

/-- C4: the message header built from a total cost is exactly the header
format of the spec (zero-padded start month/day, tilde, zero-padded end
month/day, then the two-decimal amount with its unit inside the Japanese
billing sentence), and the concrete total 1.357 USD over
2021-07-01..2021-07-11 renders as the expected string with 1.357 rounded
to 1.36. -/
theorem C4_message_header :
    (∀ t : TotalCost, t.to_message_header = headerSpecFormat t) ∧
    TotalCost.to_message_header
        { date_range := { start_date := ⟨2021, 7, 1⟩, end_date := ⟨2021, 7, 11⟩ },
          cost := { amount := some (mkRat 1357 1000), unit := "USD" } } =
      "07/01~07/11の請求額は、1.36 USDです。" := by
  constructor
  · intro t
    unfold TotalCost.to_message_header headerSpecFormat ReportedDateRange.display
      Cost.display
    simp [String.append_assoc]
  · decide

/-! ## Claim C8: wire interval round trip -/

/-- C8: formatting a report date range to the wire-level interval and
parsing both bound strings back with the strict timestamp parser yields
the same two dates, start and end mapped one to one. -/
theorem C8_interval_roundtrip (r : ReportDateRange)
    (h1 : r.start_date.isValid = true) (h2 : r.end_date.isValid = true) :
    parseTimestamp r.as_date_interval.start = some r.start_date ∧
    parseTimestamp r.as_date_interval.end_ = some r.end_date := by
  unfold ReportDateRange.as_date_interval
  exact ⟨parseTimestamp_formatDate _ h1, parseTimestamp_formatDate _ h2⟩

/-- Witness for C8 at the interval of the repository test. -/
theorem C8_interval_roundtrip_witness :
    parseTimestamp (ReportDateRange.as_date_interval
      { start_date := ⟨2021, 7, 1⟩, end_date := ⟨2021, 7, 22⟩ }).start =
      some ⟨2021, 7, 1⟩ ∧
    parseTimestamp (ReportDateRange.as_date_interval
      { start_date := ⟨2021, 7, 1⟩, end_date := ⟨2021, 7, 22⟩ }).end_ =
      some ⟨2021, 7, 22⟩ :=
  C8_interval_roundtrip _ (by decide) (by decide)

/-! ## Sample responses used by the witnesses, mirroring
prepare_sample_response of the repository test helpers -/

/-- Sample metric value of the total-cost test response. -/
def sampleTotalMetric : MetricValue :=
  { amount := some "1234.56", unit := some "USD" }

/-- Sample time bucket of the total-cost test response. -/
def sampleTotalBucket : ResultByTime :=
  { estimated := some false, groups := none,
    time_period := some { start := "2021-07-01", end_ := "2021-07-18" },
    total := some [("AmortizedCost", sampleTotalMetric)] }

/-- Sample total-cost response. -/
def sampleTotalResponse : GetCostAndUsageResponse :=
  { dimension_value_attributes := none, group_definitions := none,
    next_page_token := none, results_by_time := some [sampleTotalBucket] }

/-- Sample group of the service-cost test response. -/
def sampleGroupS3 : Group :=
  { keys := some ["Amazon Simple Storage Service"],
    metrics := some [("AmortizedCost",
      { amount := some "1234.56", unit := some "USD" })] }

/-- Second sample group of the service-cost test response. -/
def sampleGroupEC2 : Group :=
  { keys := some ["Amazon Elastic Compute Cloud"],
    metrics := some [("AmortizedCost",
      { amount := some "31415.92", unit := some "USD" })] }

/-- Sample time bucket of the service-cost test response. -/
def sampleServiceBucket : ResultByTime :=
  { estimated := some false, groups := some [sampleGroupS3, sampleGroupEC2],
    time_period := some { start := "2021-07-01", end_ := "2021-07-18" },
    total := none }

/-- Sample service-cost response. -/
def sampleServiceResponse : GetCostAndUsageResponse :=
  { dimension_value_attributes := none, group_definitions := none,
    next_page_token := none, results_by_time := some [sampleServiceBucket] }

/-- Response with no time-bucket list at all. -/
def emptyResponse : GetCostAndUsageResponse :=
  { dimension_value_attributes := none, group_definitions := none,
    next_page_token := none, results_by_time := none }

/-- Response with an empty time-bucket list. -/
def emptyBucketsResponse : GetCostAndUsageResponse :=
  { dimension_value_attributes := none, group_definitions := none,
    next_page_token := none, results_by_time := some [] }

/-- Bucket whose total map is absent. -/
def noTotalBucket : ResultByTime :=
  { estimated := some false, groups := none,
    time_period := some { start := "2021-07-01", end_ := "2021-07-18" },
    total := none }

/-- Response whose first bucket has no total map. -/
def noTotalResponse : GetCostAndUsageResponse :=
  { dimension_value_attributes := none, group_definitions := none,
    next_page_token := none, results_by_time := some [noTotalBucket] }

/-- Bucket whose total map lacks the AmortizedCost key. -/
def noMetricBucket : ResultByTime :=
  { estimated := some false, groups := none,
    time_period := some { start := "2021-07-01", end_ := "2021-07-18" },
    total := some [] }

/-- Response whose first bucket lacks the AmortizedCost key. -/
def noMetricResponse : GetCostAndUsageResponse :=
  { dimension_value_attributes := none, group_definitions := none,
    next_page_token := none, results_by_time := some [noMetricBucket] }

/-- Bucket whose total amount string is not a number. -/
def malformedTotalBucket : ResultByTime :=
  { estimated := some false, groups := none,
    time_period := some { start := "2021-07-01", end_ := "2021-07-18" },
    total := some [("AmortizedCost", { amount := some "abc", unit := some "USD" })] }

/-- Response whose total amount string is not a number. -/
def malformedTotalResponse : GetCostAndUsageResponse :=
  { dimension_value_attributes := none, group_definitions := none,
    next_page_token := none, results_by_time := some [malformedTotalBucket] }

/-- Group whose amount string is not a number. -/
def malformedGroup : Group :=
  { keys := some ["Broken Service"],
    metrics := some [("AmortizedCost",
      { amount := some "abc", unit := some "USD" })] }

/-- Response whose only group has a malformed amount. -/
def malformedGroupResponse : GetCostAndUsageResponse :=
  { dimension_value_attributes := none, group_definitions := none,
    next_page_token := none, results_by_time := some [
      { estimated := some false, groups := some [malformedGroup],
        time_period := some { start := "2021-07-01", end_ := "2021-07-18" },
        total := none }] }

/-! ## Claim C5: total-cost parsing of a well-formed response -/

/-- C5: for a response whose first time bucket carries an aggregation
period with parseable timestamps and an AmortizedCost metric with a
parseable decimal amount and a unit, total-cost parsing returns the
TotalCost holding the two parsed dates and the parsed amount and unit. -/
theorem C5_total_cost_parsing (res : GetCostAndUsageResponse)
    (bucket : ResultByTime) (rest : List ResultByTime) (period : DateInterval)
    (ds de : CalDate) (m : List (String × MetricValue)) (mv : MetricValue)
    (a : String) (q : Rat) (u : String)
    (h1 : res.results_by_time = some (bucket :: rest))
    (h2 : bucket.time_period = some period)
    (h3 : parseTimestamp period.start = some ds)
    (h4 : parseTimestamp period.end_ = some de)
    (h5 : bucket.total = some m)
    (h6 : lookupMetric m "AmortizedCost" = some mv)
    (h7 : mv.amount = some a)
    (h8 : parseAmount a = some q)
    (h9 : mv.unit = some u) :
    TotalCost.fromResponse res =
      .ok { date_range := { start_date := ds, end_date := de },
            cost := { amount := some q, unit := u } } := by
  unfold TotalCost.fromResponse
  rw [h1]
  simp only
  rw [h2]
  simp only
  rw [h3, h4, h5]
  simp only
  rw [h6]
  dsimp only
  unfold Cost.fromMetricValue
  rw [h7]
  simp only
  rw [h8, h9]
  rfl

/-- Witness for C5 at the sample response of the repository test:
amount 1234.56 USD over 2021-07-01..2021-07-18. -/
theorem C5_total_cost_parsing_witness :
    TotalCost.fromResponse sampleTotalResponse =
      .ok { date_range := { start_date := ⟨2021, 7, 1⟩, end_date := ⟨2021, 7, 18⟩ },
            cost := { amount := some (mkRat 123456 100), unit := "USD" } } :=
  C5_total_cost_parsing sampleTotalResponse sampleTotalBucket []
    { start := "2021-07-01", end_ := "2021-07-18" }
    ⟨2021, 7, 1⟩ ⟨2021, 7, 18⟩ [("AmortizedCost", sampleTotalMetric)]
    sampleTotalMetric "1234.56" (mkRat 123456 100) "USD"
    rfl rfl (by decide) (by decide) rfl (by decide) rfl
    (by decide) rfl

/-! ## Claim C6: service-cost parsing of a grouped response -/

/-- C6: a group with a nonempty key list and a parseable AmortizedCost
metric parses to the ServiceCost with the first key as the name; the
response-level parse is exactly the in-order fallible map over the group
list of the first bucket; and a successful map relates groups to outputs
one to one in order. -/
theorem C6_service_cost_parsing :
    (∀ (g : Group) (service_name : String) (ks : List String)
        (m : List (String × MetricValue)) (mv : MetricValue)
        (a : String) (q : Rat) (u : String),
        g.keys = some (service_name :: ks) → g.metrics = some m →
        lookupMetric m "AmortizedCost" = some mv → mv.amount = some a →
        parseAmount a = some q → mv.unit = some u →
        ServiceCost.fromGroup g =
          .ok { service_name := service_name,
                cost := { amount := some q, unit := u } }) ∧
    (∀ (res : GetCostAndUsageResponse) (bucket : ResultByTime)
        (rest : List ResultByTime) (groups : List Group),
        res.results_by_time = some (bucket :: rest) →
        bucket.groups = some groups →
        ServiceCost.fromResponse res = mapExcept ServiceCost.fromGroup groups) ∧
    (∀ (groups : List Group) (out : List ServiceCost),
        mapExcept ServiceCost.fromGroup groups = .ok out →
        List.Forall₂ (fun g s => ServiceCost.fromGroup g = .ok s) groups out) := by
  refine ⟨?_, ?_, ?_⟩
  · intro g service_name ks m mv a q u h1 h2 h3 h4 h5 h6
    unfold ServiceCost.fromGroup
    rw [h1]
    simp only
    rw [h2]
    simp only
    rw [h3]
    dsimp only
    unfold Cost.fromMetricValue
    rw [h4]
    simp only
    rw [h5, h6]
    rfl
  · intro res bucket rest groups h1 h2
    unfold ServiceCost.fromResponse
    rw [h1]
    simp only
    rw [h2]
  · exact mapExcept_ok_forall₂ ServiceCost.fromGroup

/-- Witness for C6 at the two-group sample of the repository test: the
groups parse in order to the S3 and EC2 service costs. -/
theorem C6_service_cost_parsing_witness :
    ServiceCost.fromGroup sampleGroupS3 =
      .ok { service_name := "Amazon Simple Storage Service",
            cost := { amount := some (mkRat 123456 100), unit := "USD" } } ∧
    ServiceCost.fromResponse sampleServiceResponse =
      mapExcept ServiceCost.fromGroup [sampleGroupS3, sampleGroupEC2] ∧
    List.Forall₂ (fun g s => ServiceCost.fromGroup g = .ok s)
      [sampleGroupS3, sampleGroupEC2]
      [{ service_name := "Amazon Simple Storage Service",
         cost := { amount := some (mkRat 123456 100), unit := "USD" } },
       { service_name := "Amazon Elastic Compute Cloud",
         cost := { amount := some (mkRat 3141592 100), unit := "USD" } }] :=
  ⟨C6_service_cost_parsing.1 sampleGroupS3 "Amazon Simple Storage Service" []
      [("AmortizedCost", { amount := some "1234.56", unit := some "USD" })]
      { amount := some "1234.56", unit := some "USD" } "1234.56"
      (mkRat 123456 100) "USD" rfl rfl (by decide) rfl
      (by decide) rfl,
   C6_service_cost_parsing.2.1 sampleServiceResponse sampleServiceBucket []
      [sampleGroupS3, sampleGroupEC2] rfl rfl,
   C6_service_cost_parsing.2.2 [sampleGroupS3, sampleGroupEC2] _
      (by rfl)⟩

/-! ## Claim C7: the error policy of the parsers -/

/-- C7: absence of an expected response section (no time-bucket list, an
empty bucket list, a missing total map, a missing AmortizedCost key, or
missing groups when grouping was requested) makes parsing fail with
MissingField, an unparseable amount string makes it fail with
MalformedCost, a group member failing makes the whole service-cost parse
fail; errors are returned instead of any cost value, so no case defaults
the cost to zero. -/
theorem C7_parse_error_policy :
    (∀ res : GetCostAndUsageResponse, res.results_by_time = none →
        TotalCost.fromResponse res = .error .MissingField ∧
        ServiceCost.fromResponse res = .error .MissingField) ∧
    (∀ res : GetCostAndUsageResponse, res.results_by_time = some [] →
        TotalCost.fromResponse res = .error .MissingField ∧
        ServiceCost.fromResponse res = .error .MissingField) ∧
    (∀ (res : GetCostAndUsageResponse) (bucket : ResultByTime)
        (rest : List ResultByTime),
        res.results_by_time = some (bucket :: rest) → bucket.groups = none →
        ServiceCost.fromResponse res = .error .MissingField) ∧
    (∀ (res : GetCostAndUsageResponse) (bucket : ResultByTime)
        (rest : List ResultByTime) (period : DateInterval) (ds de : CalDate),
        res.results_by_time = some (bucket :: rest) →
        bucket.time_period = some period →
        parseTimestamp period.start = some ds →
        parseTimestamp period.end_ = some de →
        (bucket.total = none → TotalCost.fromResponse res = .error .MissingField) ∧
        (∀ m, bucket.total = some m → lookupMetric m "AmortizedCost" = none →
          TotalCost.fromResponse res = .error .MissingField) ∧
        (∀ m mv a, bucket.total = some m →
          lookupMetric m "AmortizedCost" = some mv → mv.amount = some a →
          parseAmount a = none →
          TotalCost.fromResponse res = .error .MalformedCost)) ∧
    (∀ (g : Group) (service_name : String) (ks : List String)
        (m : List (String × MetricValue)) (mv : MetricValue) (a : String),
        g.keys = some (service_name :: ks) → g.metrics = some m →
        lookupMetric m "AmortizedCost" = some mv → mv.amount = some a →
        parseAmount a = none → ServiceCost.fromGroup g = .error .MalformedCost) ∧
    (∀ (res : GetCostAndUsageResponse) (bucket : ResultByTime)
        (rest : List ResultByTime) (groups : List Group) (g : Group)
        (e : ParseError),
        res.results_by_time = some (bucket :: rest) → bucket.groups = some groups →
        g ∈ groups → ServiceCost.fromGroup g = .error e →
        ∃ e', ServiceCost.fromResponse res = .error e') := by
  refine ⟨?_, ?_, ?_, ?_, ?_, ?_⟩
  · intro res h
    unfold TotalCost.fromResponse ServiceCost.fromResponse
    rw [h]
    exact ⟨rfl, rfl⟩
  · intro res h
    unfold TotalCost.fromResponse ServiceCost.fromResponse
    rw [h]
    exact ⟨rfl, rfl⟩
  · intro res bucket rest h1 h2
    unfold ServiceCost.fromResponse
    rw [h1]
    dsimp only
    rw [h2]
  · intro res bucket rest period ds de h1 h2 h3 h4
    refine ⟨?_, ?_, ?_⟩
    · intro h5
      unfold TotalCost.fromResponse
      rw [h1]
      dsimp only
      rw [h2]
      dsimp only
      rw [h3, h4, h5]
    · intro m h5 h6
      unfold TotalCost.fromResponse
      rw [h1]
      dsimp only
      rw [h2]
      dsimp only
      rw [h3, h4, h5]
      dsimp only
      rw [h6]
    · intro m mv a h5 h6 h7 h8
      unfold TotalCost.fromResponse
      rw [h1]
      dsimp only
      rw [h2]
      dsimp only
      rw [h3, h4, h5]
      dsimp only
      rw [h6]
      dsimp only
      unfold Cost.fromMetricValue
      rw [h7]
      dsimp only
      rw [h8]
      rfl
  · intro g service_name ks m mv a h1 h2 h3 h4 h5
    unfold ServiceCost.fromGroup
    rw [h1]
    dsimp only
    rw [h2]
    dsimp only
    rw [h3]
    dsimp only
    unfold Cost.fromMetricValue
    rw [h4]
    dsimp only
    rw [h5]
    rfl
  · intro res bucket rest groups g e h1 h2 hg hge
    unfold ServiceCost.fromResponse
    rw [h1]
    dsimp only
    rw [h2]
    exact mapExcept_error_of_mem ServiceCost.fromGroup groups g e hg hge

/-- Witness for C7 at concrete malformed responses: every missing-section
case yields MissingField, the malformed amount string abc yields
MalformedCost, and the response whose only group is malformed fails as a
whole. -/
theorem C7_parse_error_policy_witness :
    (TotalCost.fromResponse emptyResponse = .error .MissingField ∧
      ServiceCost.fromResponse emptyResponse = .error .MissingField) ∧
    (TotalCost.fromResponse emptyBucketsResponse = .error .MissingField ∧
      ServiceCost.fromResponse emptyBucketsResponse = .error .MissingField) ∧
    ServiceCost.fromResponse noTotalResponse = .error .MissingField ∧
    TotalCost.fromResponse noTotalResponse = .error .MissingField ∧
    TotalCost.fromResponse noMetricResponse = .error .MissingField ∧
    TotalCost.fromResponse malformedTotalResponse = .error .MalformedCost ∧
    ServiceCost.fromGroup malformedGroup = .error .MalformedCost ∧
    (∃ e', ServiceCost.fromResponse malformedGroupResponse = .error e') :=
  ⟨C7_parse_error_policy.1 emptyResponse rfl,
   C7_parse_error_policy.2.1 emptyBucketsResponse rfl,
   C7_parse_error_policy.2.2.1 noTotalResponse noTotalBucket [] rfl rfl,
   (C7_parse_error_policy.2.2.2.1 noTotalResponse noTotalBucket []
      { start := "2021-07-01", end_ := "2021-07-18" } ⟨2021, 7, 1⟩ ⟨2021, 7, 18⟩
      rfl rfl (by decide) (by decide)).1 rfl,
   (C7_parse_error_policy.2.2.2.1 noMetricResponse noMetricBucket []
      { start := "2021-07-01", end_ := "2021-07-18" } ⟨2021, 7, 1⟩ ⟨2021, 7, 18⟩
      rfl rfl (by decide) (by decide)).2.1 [] rfl rfl,
   (C7_parse_error_policy.2.2.2.1 malformedTotalResponse malformedTotalBucket []
      { start := "2021-07-01", end_ := "2021-07-18" } ⟨2021, 7, 1⟩ ⟨2021, 7, 18⟩
      rfl rfl (by decide) (by decide)).2.2
      [("AmortizedCost", { amount := some "abc", unit := some "USD" })]
      { amount := some "abc", unit := some "USD" } "abc" rfl (by decide) rfl
      (by decide),
   C7_parse_error_policy.2.2.2.2.1 malformedGroup "Broken Service" []
      [("AmortizedCost", { amount := some "abc", unit := some "USD" })]
      { amount := some "abc", unit := some "USD" } "abc" rfl rfl (by decide) rfl
      (by decide),
   C7_parse_error_policy.2.2.2.2.2 malformedGroupResponse
      { estimated := some false, groups := some [malformedGroup],
        time_period := some { start := "2021-07-01", end_ := "2021-07-18" },
        total := none } [] [malformedGroup] malformedGroup .MalformedCost
      rfl rfl (by simp)
      (C7_parse_error_policy.2.2.2.2.1 malformedGroup "Broken Service" []
        [("AmortizedCost", { amount := some "abc", unit := some "USD" })]
        { amount := some "abc", unit := some "USD" } "abc" rfl rfl (by decide) rfl
        (by decide))⟩

/-! ## Claim C3: the zero-cost display filter -/

/-- C3: the body built by NotificationMessage::new is the joined lines of
the sorted services filtered on the formatted cost string; a service whose
cost displays as 0.00 USD never appears among the displayed services; and
the nonzero raw amounts 0.001 and 0.005 both display as 0.00 USD, so the
filter acts on the formatted string and not on the raw amount being
exactly zero. -/
theorem C3_zero_cost_filter :
    (∀ (total_cost : TotalCost) (service_costs sorted : List ServiceCost),
        sortServiceCosts service_costs = some sorted →
        NotificationMessage.new total_cost service_costs =
          some { header := total_cost.to_message_header,
                 body := String.intercalate "\n"
                   ((sorted.filter fun x => x.cost.display != "0.00 USD").map
                     ServiceCost.to_message_line) }) ∧
    (∀ (sorted : List ServiceCost) (s : ServiceCost),
        s.cost.display = "0.00 USD" →
        s ∉ sorted.filter fun x => x.cost.display != "0.00 USD") ∧
    Cost.display { amount := some (mkRat 1 1000), unit := "USD" } = "0.00 USD" ∧
    Cost.display { amount := some (mkRat 1 200), unit := "USD" } = "0.00 USD" ∧
    (mkRat 1 1000 : Rat) ≠ 0 ∧ (mkRat 1 200 : Rat) ≠ 0 := by
  refine ⟨?_, ?_, by decide, by decide, by decide, by decide⟩
  · intro total_cost service_costs sorted h
    unfold NotificationMessage.new
    rw [h]
    rfl
  · intro sorted s hs hmem
    rw [List.mem_filter] at hmem
    have hp := hmem.2
    rw [hs] at hp
    simp at hp

/-- Total cost of the zero-filter test of the repository. -/
def zeroFilterTotal : TotalCost :=
  { date_range := { start_date := ⟨2021, 7, 1⟩, end_date := ⟨2021, 7, 11⟩ },
    cost := { amount := some (mkRat 1 100), unit := "USD" } }

/-- Input service costs of the zero-filter test of the repository. -/
def zeroFilterInput : List ServiceCost :=
  [{ service_name := "AWS CloudTrail",
     cost := { amount := some (mkRat 1 100), unit := "USD" } },
   { service_name := "AWS Cost Explorer",
     cost := { amount := some (mkRat 1 1000), unit := "USD" } },
   { service_name := "AWS Dummy Service",
     cost := { amount := some (mkRat 1 200), unit := "USD" } }]

/-- Sorted service costs of the zero-filter test of the repository. -/
def zeroFilterSorted : List ServiceCost :=
  [{ service_name := "AWS CloudTrail",
     cost := { amount := some (mkRat 1 100), unit := "USD" } },
   { service_name := "AWS Dummy Service",
     cost := { amount := some (mkRat 1 200), unit := "USD" } },
   { service_name := "AWS Cost Explorer",
     cost := { amount := some (mkRat 1 1000), unit := "USD" } }]

/-- Witness for C3 at the zero-filter test of the repository: the services
with raw amounts 0.001 and 0.005 are dropped from the displayed list. -/
theorem C3_zero_cost_filter_witness :
    NotificationMessage.new zeroFilterTotal zeroFilterInput =
      some { header := zeroFilterTotal.to_message_header,
             body := String.intercalate "\n"
               ((zeroFilterSorted.filter fun x =>
                  x.cost.display != "0.00 USD").map
                 ServiceCost.to_message_line) } ∧
    ({ service_name := "AWS Cost Explorer",
       cost := { amount := some (mkRat 1 1000), unit := "USD" } } : ServiceCost) ∉
      zeroFilterSorted.filter fun x => x.cost.display != "0.00 USD" :=
  ⟨C3_zero_cost_filter.1 zeroFilterTotal zeroFilterInput zeroFilterSorted
     (by simp +decide [sortServiceCosts, mergeSortOpt, splitHalf, mergeOpt,
        serviceCostComparator, Cost.cmpOption, cmpAmount, compareQ, compareString,
        zeroFilterInput, zeroFilterSorted]),
   C3_zero_cost_filter.2.1 zeroFilterSorted _ (by decide)⟩

/-! ## Claim C9: no partial notification -/

/-- C9: a run of request_cost_and_notify either retrieves and parses both
the total cost and the service costs, builds the message and hands exactly
one message to the notifier, or hands over no message at all and returns
an error; any failure before the send step aborts the invocation with
nothing sent. -/
theorem C9_no_partial_notification
    (client : GetCostAndUsageRequest → Except String GetCostAndUsageResponse)
    (slack_post : NotificationMessage → Except String Unit)
    (reporting_date : CalDate) :
    (∃ total_cost service_costs notification_message,
        request_total_cost client (ReportDateRange.new reporting_date) =
          .ok total_cost ∧
        request_service_costs client (ReportDateRange.new reporting_date) =
          .ok service_costs ∧
        NotificationMessage.new total_cost service_costs =
          some notification_message ∧
        (request_cost_and_notify client slack_post reporting_date).2 =
          [notification_message]) ∨
    ((request_cost_and_notify client slack_post reporting_date).2 = [] ∧
      ∃ e, (request_cost_and_notify client slack_post reporting_date).1 =
        .error e) := by
  cases hT : request_total_cost client (ReportDateRange.new reporting_date) with
  | error e =>
    right
    constructor
    · unfold request_cost_and_notify
      dsimp only
      rw [hT]
    · unfold request_cost_and_notify
      dsimp only
      rw [hT]
      exact ⟨e, rfl⟩
  | ok total_cost =>
    cases hS : request_service_costs client (ReportDateRange.new reporting_date) with
    | error e =>
      right
      constructor
      · unfold request_cost_and_notify
        dsimp only
        rw [hT, hS]
      · unfold request_cost_and_notify
        dsimp only
        rw [hT, hS]
        exact ⟨e, rfl⟩
    | ok service_costs =>
      cases hM : NotificationMessage.new total_cost service_costs with
      | none =>
        right
        constructor
        · unfold request_cost_and_notify
          dsimp only
          rw [hT, hS]
          dsimp only
          rw [hM]
        · unfold request_cost_and_notify
          dsimp only
          rw [hT, hS]
          dsimp only
          rw [hM]
          exact ⟨.buildPanic, rfl⟩
      | some notification_message =>
        left
        refine ⟨total_cost, service_costs, notification_message, rfl, rfl, hM, ?_⟩
        unfold request_cost_and_notify
        dsimp only
        rw [hT, hS]
        dsimp only
        rw [hM]
        dsimp only
        cases slack_post notification_message <;> rfl

/-! ## Claim C2: sort order and stability of the message body -/

/-- Total cost shared by the concrete sorting examples. -/
def tieTotal : TotalCost :=
  { date_range := { start_date := ⟨2021, 7, 1⟩, end_date := ⟨2021, 7, 11⟩ },
    cost := { amount := some (mkRat 1 1), unit := "USD" } }

/-- Service with amount 1.00 in unit JPY, listed first. -/
def tieInputA : ServiceCost :=
  { service_name := "Service A", cost := { amount := some (mkRat 1 1), unit := "JPY" } }

/-- Service with amount 1.00 in unit USD, listed second. -/
def tieInputB : ServiceCost :=
  { service_name := "Service B", cost := { amount := some (mkRat 1 1), unit := "USD" } }

/-- Counterexample to C2 as stated: the comparator of the code compares
the whole Cost with the derived PartialOrd, so equal amounts fall back to
the unit string as a secondary key; the two services below have equal
amount 1.00 but units JPY and USD, and the built body lists B (USD)
before A (JPY), not in input order. -/
theorem C2_sort_counterexample :
    tieInputA.cost.amount = tieInputB.cost.amount ∧
    NotificationMessage.new tieTotal [tieInputA, tieInputB] =
      some { header := tieTotal.to_message_header,
             body := "・Service B: 1.00 USD\n・Service A: 1.00 JPY" } := by
  constructor
  · rfl
  · have hs : sortServiceCosts [tieInputA, tieInputB] = some [tieInputB, tieInputA] := by
      simp +decide [sortServiceCosts, mergeSortOpt, splitHalf, mergeOpt,
        serviceCostComparator, Cost.cmpOption, cmpAmount, compareQ, compareString,
        tieInputA, tieInputB]
    unfold NotificationMessage.new
    rw [hs]
    rfl

/-- C2 (amended): for every successfully built message, the body is the
joined lines of the sorted service list after the zero filter; the sorted
list is in non-increasing lexicographic order of the pair of cost amount
and unit string (amount compared first, the unit string acting as the
secondary key of the derived Cost ordering, both descending); and any two
services with fully equal cost, amount and unit alike, keep their
relative order from the input list (the sort is stable on
comparator-equal elements). -/
theorem C2_sort_descending_stable (total_cost : TotalCost)
    (service_costs : List ServiceCost) (msg : NotificationMessage)
    (h : NotificationMessage.new total_cost service_costs = some msg) :
    ∃ sorted, sortServiceCosts service_costs = some sorted ∧
      msg.body = String.intercalate "\n"
        ((sorted.filter fun x => x.cost.display != "0.00 USD").map
          ServiceCost.to_message_line) ∧
      sorted.Pairwise (fun u v => ¬ Cost.lexLt u.cost v.cost) ∧
      (∀ c : Cost, sorted.filter (fun s => decide (s.cost = c)) =
        service_costs.filter (fun s => decide (s.cost = c))) := by
  unfold NotificationMessage.new at h
  cases hs : sortServiceCosts service_costs with
  | none =>
    rw [hs] at h
    simp at h
  | some sorted =>
    rw [hs] at h
    simp only [Option.map_some', Option.some.injEq] at h
    subst h
    refine ⟨sorted, rfl, rfl, ?_⟩
    by_cases hfin : ∀ s ∈ service_costs, finiteAmount s
    · constructor
      · have hpw := sortServiceCosts_pairwise service_costs sorted hfin hs
        have hperm := sortServiceCosts_perm service_costs sorted hs
        refine hpw.imp_of_mem ?_
        intro u v hu hv huv hlex
        have hu' : finiteAmount u := hfin u (hperm.mem_iff.mp hu)
        have hv' : finiteAmount v := hfin v (hperm.mem_iff.mp hv)
        exact huv ((serviceCostComparator_gt_iff_lexLt u v hu' hv').mpr hlex)
      · intro c
        exact sortServiceCosts_filter_stable c service_costs sorted hfin hs
    · have hbad : ∃ s ∈ service_costs, s.cost.amount = none := by
        by_contra hc
        push_neg at hc
        exact hfin fun s hsm => hc s hsm
      by_cases hlen : 2 ≤ service_costs.length
      · rw [sortServiceCosts_none_of_nan service_costs hlen hbad] at hs
        exact absurd hs (by simp)
      · match service_costs, hs with
        | [], hs =>
          have he : sortServiceCosts ([] : List ServiceCost) = some [] := by
            simp [sortServiceCosts, mergeSortOpt]
          rw [he] at hs
          injection hs with hs
          subst hs
          exact ⟨List.Pairwise.nil, fun c => rfl⟩
        | [x], hs =>
          have he : sortServiceCosts [x] = some [x] := by
            simp [sortServiceCosts, mergeSortOpt]
          rw [he] at hs
          injection hs with hs
          subst hs
          exact ⟨List.pairwise_singleton _ _, fun c => rfl⟩
        | x :: y :: ys, hs => simp at hlen

/-- Descending-sort test input of the repository: amounts 1, 3, 2. -/
def descInput : List ServiceCost :=
  [{ service_name := "AWS Service A",
     cost := { amount := some (mkRat 1 1), unit := "USD" } },
   { service_name := "AWS Service B",
     cost := { amount := some (mkRat 3 1), unit := "USD" } },
   { service_name := "AWS Service C",
     cost := { amount := some (mkRat 2 1), unit := "USD" } }]

/-- Sorted form of the descending-sort test input: amounts 3, 2, 1. -/
def descSorted : List ServiceCost :=
  [{ service_name := "AWS Service B",
     cost := { amount := some (mkRat 3 1), unit := "USD" } },
   { service_name := "AWS Service C",
     cost := { amount := some (mkRat 2 1), unit := "USD" } },
   { service_name := "AWS Service A",
     cost := { amount := some (mkRat 1 1), unit := "USD" } }]

/-- Witness for the amended C2 at the descending-sort test of the
repository. -/
theorem C2_sort_descending_stable_witness :
    ∃ sorted, sortServiceCosts descInput = some sorted ∧
      (String.intercalate "\n"
        ((descSorted.filter fun x => x.cost.display != "0.00 USD").map
          ServiceCost.to_message_line)) = String.intercalate "\n"
        ((sorted.filter fun x => x.cost.display != "0.00 USD").map
          ServiceCost.to_message_line) ∧
      sorted.Pairwise (fun u v => ¬ Cost.lexLt u.cost v.cost) ∧
      (∀ c : Cost, sorted.filter (fun s => decide (s.cost = c)) =
        descInput.filter (fun s => decide (s.cost = c))) := by
  have hmsg : NotificationMessage.new tieTotal descInput =
      some { header := tieTotal.to_message_header,
             body := String.intercalate "\n"
               ((descSorted.filter fun x => x.cost.display != "0.00 USD").map
                 ServiceCost.to_message_line) } := by
    have hs : sortServiceCosts descInput = some descSorted := by
      simp +decide [sortServiceCosts, mergeSortOpt, splitHalf, mergeOpt,
        serviceCostComparator, Cost.cmpOption, cmpAmount, compareQ, compareString,
        descInput, descSorted]
    unfold NotificationMessage.new
    rw [hs]
    rfl
  obtain ⟨sorted, h1, h2, h3, h4⟩ :=
    C2_sort_descending_stable tieTotal descInput _ hmsg
  exact ⟨sorted, h1, h2, h3, h4⟩

/-! ## Claim C10: comparability and the sorting panic -/

/-- Service whose amount is NaN. -/
def nanService : ServiceCost :=
  { service_name := "Service X", cost := { amount := none, unit := "USD" } }

/-- Counterexample to C10 as stated: an input containing a NaN amount does
not always make the sort panic; on a singleton list the sort performs no
comparison at all, so message construction succeeds and even renders the
NaN line. -/
theorem C10_nan_counterexample :
    NotificationMessage.new tieTotal [nanService] =
      some { header := tieTotal.to_message_header,
             body := "・Service X: NaN USD" } := by
  have hs : sortServiceCosts [nanService] = some [nanService] := by
    simp [sortServiceCosts, mergeSortOpt]
  unfold NotificationMessage.new
  rw [hs]
  rfl

/-- C10 (amended): message construction succeeds whenever every amount is
comparable (no NaN), and the comparability precondition is required for
every input of two or more services: a NaN amount alongside at least one
other service makes the sort comparison fail, which is the panic of the
unwrap inside sort_by, so construction yields no message. -/
theorem C10_sort_comparability :
    (∀ (total_cost : TotalCost) (service_costs : List ServiceCost),
        (∀ s ∈ service_costs, s.cost.amount ≠ none) →
        ∃ msg, NotificationMessage.new total_cost service_costs = some msg) ∧
    (∀ (total_cost : TotalCost) (service_costs : List ServiceCost),
        2 ≤ service_costs.length →
        (∃ s ∈ service_costs, s.cost.amount = none) →
        NotificationMessage.new total_cost service_costs = none) := by
  constructor
  · intro total_cost service_costs hfin
    obtain ⟨r, hr⟩ := sortServiceCosts_some_of_finite service_costs hfin
    refine ⟨{ header := total_cost.to_message_header,
              body := String.intercalate "\n"
                ((r.filter fun x => x.cost.display != "0.00 USD").map
                  ServiceCost.to_message_line) }, ?_⟩
    unfold NotificationMessage.new
    rw [hr]
    rfl
  · intro total_cost service_costs h2 hbad
    unfold NotificationMessage.new
    rw [sortServiceCosts_none_of_nan service_costs h2 hbad]
    rfl

/-- Witness for the amended C10: the two-service comparable input builds a
message, and a NaN amount next to another service builds none. -/
theorem C10_sort_comparability_witness :
    (∃ msg, NotificationMessage.new tieTotal [tieInputA, tieInputB] = some msg) ∧
    NotificationMessage.new tieTotal [nanService, tieInputB] = none :=
  ⟨C10_sort_comparability.1 tieTotal [tieInputA, tieInputB] (by decide),
   C10_sort_comparability.2 tieTotal [nanService, tieInputB] (by decide) (by decide)⟩

end AwsCostNotif
